import Mathlib

/-
  Verification development for the fastdraw spatial index (loose quadtree
  ObjectStore) and LOD chunk cache (ChunkManager).

  The TypeScript sources are shallowly embedded:
  * JS numbers are modelled as rationals (ℚ); the code under study only uses
    +, -, *, /2, min, max, floor and comparisons on them.
  * Typed arrays (Float32Array, Int32Array, ...) are modelled as Lean Arrays;
    a JS typed-array write out of range is a silent no-op, which is exactly
    Array.setD, and an in-range read of a never-written slot yields the
    fill value the array was created with.
  * -1 sentinels from the source are kept: indices that can be -1 are Int.
  * JS Maps are modelled as insertion-ordered association lists.
  * Exceptions (the node pool throws on exhaustion) are modelled with Option.
-/

namespace FD

/-- Axis-aligned box given as x, y, width, height (source BoundingBox; also
the 4-component Float32Array views used for bounds and queries). -/
structure BBox where
  x : ℚ
  y : ℚ
  w : ℚ
  h : ℚ
  deriving DecidableEq, Repr, Inhabited

/-- Center/half-extent bounds of a quadtree node (source NodeBounds). -/
structure NodeBounds where
  centerX : ℚ
  centerY : ℚ
  halfWidth : ℚ
  halfHeight : ℚ
  deriving DecidableEq, Repr, Inhabited

/-- Read of an Int-indexed slot: negative or out-of-range indices fall back
to the given default (the fill value of the corresponding typed array). -/
def idxGet (a : Array α) (i : Int) (d : α) : α :=
  if i < 0 then d else a.getD i.toNat d

/-- Write to an Int-indexed slot; out-of-range writes are dropped, as for a
JS typed array. -/
def idxSet (a : Array α) (i : Int) (v : α) : Array α :=
  if i < 0 then a else a.setD i.toNat v

/-- Write to a plain JS array slot: the array grows as needed (JS arrays are
not fixed-size), padding fresh slots with the given default. -/
def growSet (a : Array α) (i : Nat) (v : α) (pad : α) : Array α :=
  if i < a.size then a.setD i v
  else (a ++ Array.mkArray (i + 1 - a.size) pad).setD i v

/-- Insertion-ordered map lookup (JS Map.get). -/
def mapGet (m : List (Nat × α)) (k : Nat) : Option α :=
  (m.find? (fun p => p.1 == k)).map (fun p => p.2)

/-- Insertion-ordered map update (JS Map.set): an existing key keeps its
position, a fresh key is appended. -/
def mapSet (m : List (Nat × α)) (k : Nat) (v : α) : List (Nat × α) :=
  if m.any (fun p => p.1 == k) then
    m.map (fun p => if p.1 == k then (k, v) else p)
  else m ++ [(k, v)]

/-- Insertion-ordered map removal (JS Map.delete). -/
def mapDel (m : List (Nat × α)) (k : Nat) : List (Nat × α) :=
  m.filter (fun p => p.1 != k)

/-- Insertion-ordered map lookup for structured keys (JS Maps keyed by the
chunk / segment key strings, modelled by the tuples those strings encode). -/
def mapGet' [BEq κ] (m : List (κ × α)) (k : κ) : Option α :=
  (m.find? (fun p => p.1 == k)).map (fun p => p.2)

/-! ## Node pool (source ObjectStoreNodePool) -/

/-- Fixed-capacity arena of quadtree nodes.  Source fields are kept; the
Uint8 flags array only ever holds the Leaf bit, modelled as a Bool array. -/
structure NodePool where
  capacity : Nat
  bounds : Array NodeBounds
  firstObject : Array Int
  objectCount : Array Nat
  parent : Array Int
  children : Array Int
  depth : Array Nat
  leafFlag : Array Bool
  freeList : List Nat
  nodeCount : Nat
  deriving Inhabited

/-- Source ObjectStoreNodePool constructor (capacity must be positive there;
a non-positive capacity throws, which never happens for the stores built
here). -/
def NodePool.create (capacity : Nat) : NodePool where
  capacity := capacity
  bounds := Array.mkArray capacity default
  firstObject := Array.mkArray capacity (-1)
  objectCount := Array.mkArray capacity 0
  parent := Array.mkArray capacity (-1)
  children := Array.mkArray (capacity * 4) (-1)
  depth := Array.mkArray capacity 0
  leafFlag := Array.mkArray capacity false
  freeList := []
  nodeCount := 0

/-- Source ObjectStoreNodePool.obtainNodeId; `none` models the thrown
"ObjectStoreNodePool exhausted" error. -/
def NodePool.obtainNodeId (p : NodePool) : Option (Nat × NodePool) :=
  match p.freeList with
  | id :: rest => some (id, { p with freeList := rest })
  | [] =>
    if p.nodeCount ≥ p.capacity then none
    else some (p.nodeCount, { p with nodeCount := p.nodeCount + 1 })

/-- Source ObjectStoreNodePool.allocateNode. -/
def NodePool.allocateNode (p : NodePool) (parentId : Int) (depth : Nat)
    (b : NodeBounds) : Option (Nat × NodePool) :=
  match p.obtainNodeId with
  | none => none
  | some (nodeId, p) =>
    some (nodeId,
      { p with
        bounds := p.bounds.setD nodeId b
        parent := p.parent.setD nodeId parentId
        depth := p.depth.setD nodeId depth
        leafFlag := p.leafFlag.setD nodeId true
        firstObject := p.firstObject.setD nodeId (-1)
        objectCount := p.objectCount.setD nodeId 0
        children := ((((p.children.setD (nodeId * 4) (-1)).setD
          (nodeId * 4 + 1) (-1)).setD
          (nodeId * 4 + 2) (-1)).setD
          (nodeId * 4 + 3) (-1)) })

/-- Source ObjectStoreNodePool.releaseNode. -/
def NodePool.releaseNode (p : NodePool) (nodeId : Int) : NodePool :=
  if nodeId < 0 ∨ nodeId ≥ (p.capacity : Int) then p
  else
    let n := nodeId.toNat
    { p with
      firstObject := p.firstObject.setD n (-1)
      objectCount := p.objectCount.setD n 0
      leafFlag := p.leafFlag.setD n true
      children := ((((p.children.setD (n * 4) (-1)).setD
        (n * 4 + 1) (-1)).setD
        (n * 4 + 2) (-1)).setD
        (n * 4 + 3) (-1))
      freeList := n :: p.freeList }

/-- Source ObjectStoreNodePool.setLeaf. -/
def NodePool.setLeaf (p : NodePool) (nodeId : Int) (v : Bool) : NodePool :=
  { p with leafFlag := idxSet p.leafFlag nodeId v }

/-- Source ObjectStoreNodePool.isLeaf. -/
def NodePool.isLeaf (p : NodePool) (nodeId : Int) : Bool :=
  idxGet p.leafFlag nodeId false

/-- Source ObjectStoreNodePool.getParent. -/
def NodePool.getParent (p : NodePool) (nodeId : Int) : Int :=
  idxGet p.parent nodeId (-1)

/-- Source ObjectStoreNodePool.getBounds (the out-array is returned). -/
def NodePool.getBounds (p : NodePool) (nodeId : Int) : NodeBounds :=
  idxGet p.bounds nodeId default

/-- Source ObjectStoreNodePool.setBounds. -/
def NodePool.setBounds (p : NodePool) (nodeId : Int) (b : NodeBounds) : NodePool :=
  { p with bounds := idxSet p.bounds nodeId b }

/-- Source ObjectStoreNodePool.getFirstObject (an invalid node id reads as
an empty list head, matching the array's -1 fill). -/
def NodePool.getFirstObject (p : NodePool) (nodeId : Int) : Int :=
  idxGet p.firstObject nodeId (-1)

/-- Source ObjectStoreNodePool.setFirstObject. -/
def NodePool.setFirstObject (p : NodePool) (nodeId : Int) (handle : Int) : NodePool :=
  { p with firstObject := idxSet p.firstObject nodeId handle }

/-- Source ObjectStoreNodePool.getObjectCount. -/
def NodePool.getObjectCount (p : NodePool) (nodeId : Int) : Nat :=
  idxGet p.objectCount nodeId 0

/-- Source ObjectStoreNodePool.incrementObjectCount (Uint16 arithmetic). -/
def NodePool.incrementObjectCount (p : NodePool) (nodeId : Int) : NodePool :=
  { p with objectCount :=
      idxSet p.objectCount nodeId ((idxGet p.objectCount nodeId 0 + 1) % 65536) }

/-- Source ObjectStoreNodePool.decrementObjectCount. -/
def NodePool.decrementObjectCount (p : NodePool) (nodeId : Int) : NodePool :=
  if idxGet p.objectCount nodeId 0 > 0 then
    { p with objectCount :=
        idxSet p.objectCount nodeId (idxGet p.objectCount nodeId 0 - 1) }
  else p

/-- Source ObjectStoreNodePool.getChild. -/
def NodePool.getChild (p : NodePool) (nodeId : Int) (index : Nat) : Int :=
  idxGet p.children (nodeId * 4 + index) (-1)

/-- Source ObjectStoreNodePool.setChild. -/
def NodePool.setChild (p : NodePool) (nodeId : Int) (index : Nat) (childId : Int) : NodePool :=
  { p with children := idxSet p.children (nodeId * 4 + index) childId }

/-- Source createRootBounds. -/
def createRootBounds (worldBounds : BBox) : NodeBounds :=
  let halfWidth := worldBounds.w / 2
  let halfHeight := worldBounds.h / 2
  { centerX := worldBounds.x + halfWidth
    centerY := worldBounds.y + halfHeight
    halfWidth := halfWidth
    halfHeight := halfHeight }

/-! ## ObjectStore state (source ObjectStore) -/

/-- Source LooseObjectStoreOptions with every default filled in
(Required<LooseObjectStoreOptions>). -/
structure Options where
  minNodeSize : ℚ
  maxDepth : Nat
  maxObjectsPerNode : Nat
  mergeThreshold : Nat
  looseness : ℚ
  oversizedNodeDepthCap : Nat
  nodePoolSize : Nat
  objectCapacity : Nat
  objectRefCapacity : Nat
  tileChunkSize : Nat
  dynamicUpdateThreshold : Nat
  dynamicUpdateWindow : Nat
  deriving Repr, Inhabited

/-- Source DEFAULT_OPTIONS. -/
def defaultOptions : Options where
  minNodeSize := 256
  maxDepth := 8
  maxObjectsPerNode := 32
  mergeThreshold := 12
  looseness := 3/2
  oversizedNodeDepthCap := 4
  nodePoolSize := 16384
  objectCapacity := 4096
  objectRefCapacity := 4096
  tileChunkSize := 32
  dynamicUpdateThreshold := 6
  dynamicUpdateWindow := 16

/-- Object flag bits (source ObjectFlags): Static 1, Dynamic 2, Dirty 4,
Deleted 8, Oversized 16, TileCoverageDirty 32. -/
def flagDynamic : Nat := 2

def flagDirty : Nat := 4

def flagDeleted : Nat := 8

def flagTileCoverageDirty : Nat := 32

/-- A logical drawing object as far as the index/cache care: identifier,
cached bounding box, draw order (source DrawObject; content is external). -/
structure DrawObj where
  id : Nat
  bbox : Option BBox
  zIndex : Option Int
  deriving DecidableEq, Repr, Inhabited

/-- Source ObjectRecord. -/
structure ObjectRecord where
  id : Nat
  handle : Nat
  nodeId : Int
  flags : Nat
  updateTicks : Nat
  windowTicks : Nat
  deriving DecidableEq, Repr, Inhabited

/-- Source InsertionResult. -/
structure InsertionResult where
  handle : Int
  nodeId : Int
  flags : Nat
  inserted : Bool
  deriving DecidableEq, Repr, Inhabited

/-- Source UpdateResult; status is one of updated / moved / failed. -/
inductive UpdateStatus where
  | updated
  | moved
  | failed
  deriving DecidableEq, Repr, Inhabited

/-- Source UpdateResult. -/
structure UpdateResult where
  handle : Int
  nodeId : Int
  flags : Nat
  status : UpdateStatus
  deriving DecidableEq, Repr, Inhabited

/-- Source FindOptions: both fields optional, defaulted inside findInBounds
(includeDynamic ?? true, mode ?? nonDeleted). -/
structure FindOptions where
  includeDynamic : Option Bool := none
  modeAll : Option Bool := none

/-- The mutable state of the source ObjectStore class.  Scratch buffers are
not modelled: nodeStack and the walk cursors become explicit arguments, the
bbox scratch reads become returned values, and the handleStack write in
findInBounds (a debug scribble whose contents are never read back there) is
dropped. -/
structure Store where
  opts : Options
  pool : NodePool
  objectIndex : List (Nat × ObjectRecord)
  handleToId : Array (Option Nat)
  objectStore : List (Nat × DrawObj)
  objectBounds : Array BBox
  objectFlags : Array Nat
  objectNode : Array Int
  objectRefIndex : Array Int
  objectUpdateCounter : Array Nat
  objectWindowCounter : Array Nat
  objectRefHandle : Array Nat
  objectRefNext : Array Int
  dynamicHandles : Array Nat
  objectCapacity : Nat
  objectRefCapacity : Nat
  handleFreeList : List Nat
  objectRefFreeList : List Nat
  objectRefUsed : Nat
  dynamicHandleCount : Nat
  usedHandles : Nat
  rootNodeId : Int
  externalGetter : Option (Nat → Option DrawObj)
  deriving Inhabited

/-- Source ObjectStore constructor.  The root allocation always succeeds when
the pool capacity is positive; a zero capacity pool (which would throw in the
constructor) yields the untouched empty pool here. -/
def freshStore (o : Options) : Store :=
  let pool := NodePool.create o.nodePoolSize
  let rootBounds := createRootBounds
    { x := 0, y := 0, w := o.minNodeSize, h := o.minNodeSize }
  let (rootId, pool) :=
    match pool.allocateNode (-1) 0 rootBounds with
    | some (id, p) => ((id : Int), p)
    | none => (-1, pool)
  { opts := o
    pool := pool
    objectIndex := []
    handleToId := Array.mkArray o.objectCapacity none
    objectStore := []
    objectBounds := Array.mkArray o.objectCapacity default
    objectFlags := Array.mkArray o.objectCapacity 0
    objectNode := Array.mkArray o.objectCapacity (-1)
    objectRefIndex := Array.mkArray o.objectCapacity (-1)
    objectUpdateCounter := Array.mkArray o.objectCapacity 0
    objectWindowCounter := Array.mkArray o.objectCapacity 0
    objectRefHandle := Array.mkArray o.objectRefCapacity 0
    objectRefNext := Array.mkArray o.objectRefCapacity (-1)
    dynamicHandles := Array.mkArray o.objectCapacity 0
    objectCapacity := o.objectCapacity
    objectRefCapacity := o.objectRefCapacity
    handleFreeList := []
    objectRefFreeList := []
    objectRefUsed := 0
    dynamicHandleCount := 0
    usedHandles := 0
    rootNodeId := rootId
    externalGetter := none }

/-! ## ObjectStore helpers -/

/-- Source ObjectStore.ensureRootBounds. -/
def Store.ensureRootBounds (s : Store) (bbox : BBox) : Store :=
  let nb := s.pool.getBounds s.rootNodeId
  let halfWidth := nb.halfWidth
  let halfHeight := nb.halfHeight
  let minX := nb.centerX - halfWidth
  let maxX := nb.centerX + halfWidth
  let minY := nb.centerY - halfHeight
  let maxY := nb.centerY + halfHeight
  let bboxMinX := bbox.x
  let bboxMaxX := bbox.x + bbox.w
  let bboxMinY := bbox.y
  let bboxMaxY := bbox.y + bbox.h
  if bboxMinX ≥ minX ∧ bboxMaxX ≤ maxX ∧ bboxMinY ≥ minY ∧ bboxMaxY ≤ maxY then s
  else
    let newCenterX := min minX bboxMinX + (max maxX bboxMaxX - min minX bboxMinX) / 2
    let newCenterY := min minY bboxMinY + (max maxY bboxMaxY - min minY bboxMinY) / 2
    let newHalfWidth := (max maxX bboxMaxX - min minX bboxMinX) / 2
    let newHalfHeight := (max maxY bboxMaxY - min minY bboxMinY) / 2
    let nextHalfWidth := max newHalfWidth (s.opts.minNodeSize / 2)
    let nextHalfHeight := max newHalfHeight (s.opts.minNodeSize / 2)
    let nextBounds : NodeBounds :=
      { centerX := newCenterX, centerY := newCenterY
        halfWidth := nextHalfWidth, halfHeight := nextHalfHeight }
    { s with pool := s.pool.setBounds s.rootNodeId nextBounds }

/-- Common body of the source resizeFloatArray / resizeUint32Array /
resizeUint16Array / resizeInt32Array helpers and of the handleToId null
padding loop in resizeHandles: grow to the requested length keeping existing
contents, padding the fresh tail with the array's fill value. -/
def growTo (a : Array α) (newLength : Nat) (pad : α) : Array α :=
  if a.size ≥ newLength then a
  else a ++ Array.mkArray (newLength - a.size) pad

/-- Source ObjectStore.resizeHandles body (see the doc comment above
growTo's callers). -/
def Store.resizeHandles (s : Store) (newCapacity : Nat) : Store :=
  { s with
    objectCapacity := newCapacity
    objectBounds := growTo s.objectBounds newCapacity default
    objectFlags := growTo s.objectFlags newCapacity 0
    objectNode := growTo s.objectNode newCapacity (-1)
    objectRefIndex := growTo s.objectRefIndex newCapacity (-1)
    objectUpdateCounter := growTo s.objectUpdateCounter newCapacity 0
    objectWindowCounter := growTo s.objectWindowCounter newCapacity 0
    dynamicHandles := growTo s.dynamicHandles newCapacity 0
    handleToId := growTo s.handleToId newCapacity none }

/-- Source ObjectStore.expandHandles. -/
def Store.expandHandles (s : Store) : Nat × Store :=
  let s :=
    if s.objectCapacity = s.handleToId.size then
      s.resizeHandles (s.objectCapacity * 2)
    else s
  (s.usedHandles, s)

/-- Source ObjectStore.obtainHandle. -/
def Store.obtainHandle (s : Store) (id : Nat) : Nat × Store :=
  match mapGet s.objectIndex id with
  | some record => (record.handle, s)
  | none =>
    let (handle, s) :=
      match s.handleFreeList with
      | h :: rest => (h, { s with handleFreeList := rest })
      | [] =>
        if s.usedHandles ≥ s.objectCapacity then s.expandHandles
        else (s.usedHandles, s)
    (handle,
      { s with
        usedHandles := s.usedHandles + 1
        handleToId := growSet s.handleToId handle (some id) none
        objectFlags := s.objectFlags.setD handle 0
        objectNode := s.objectNode.setD handle (-1)
        objectRefIndex := s.objectRefIndex.setD handle (-1)
        objectUpdateCounter := s.objectUpdateCounter.setD handle 0
        objectWindowCounter := s.objectWindowCounter.setD handle 0 })

/-- Source ObjectStore.writeBoundingBox. -/
def Store.writeBoundingBox (s : Store) (handle : Nat) (bbox : BBox) : Store :=
  { s with objectBounds := s.objectBounds.setD handle bbox }

/-- Source ObjectStore.readBoundingBox (returning the scratch values). -/
def Store.readBoundingBox (s : Store) (handle : Nat) : BBox :=
  s.objectBounds.getD handle default

/-- Source ObjectStore.bboxIntersects: strict open-interval overlap. -/
def bboxIntersects (lhs rhs : BBox) : Bool :=
  let lhsMaxX := lhs.x + lhs.w
  let lhsMaxY := lhs.y + lhs.h
  let rhsMaxX := rhs.x + rhs.w
  let rhsMaxY := rhs.y + rhs.h
  lhs.x < rhsMaxX ∧ lhsMaxX > rhs.x ∧ lhs.y < rhsMaxY ∧ lhsMaxY > rhs.y

/-- Source ObjectStore.nodeIntersects: the node bounds inflated by the
looseness factor against the query rectangle. -/
def Store.nodeIntersects (s : Store) (nodeId : Int) (bounds : BBox) : Bool :=
  let nb := s.pool.getBounds nodeId
  let looseness := s.opts.looseness
  let minX := nb.centerX - nb.halfWidth * looseness
  let maxX := nb.centerX + nb.halfWidth * looseness
  let minY := nb.centerY - nb.halfHeight * looseness
  let maxY := nb.centerY + nb.halfHeight * looseness
  let boundsMaxX := bounds.x + bounds.w
  let boundsMaxY := bounds.y + bounds.h
  minX < boundsMaxX ∧ maxX > bounds.x ∧ minY < boundsMaxY ∧ maxY > bounds.y

/-- Source ObjectStore.selectChild. -/
def Store.selectChild (s : Store) (nodeId : Int) (bbox : BBox) (depth : Nat) : Int :=
  if depth ≥ s.opts.maxDepth then -1
  else
    let nb := s.pool.getBounds nodeId
    if nb.halfWidth ≤ s.opts.minNodeSize ∧ nb.halfHeight ≤ s.opts.minNodeSize then -1
    else
      let midX := nb.centerX
      let midY := nb.centerY
      let bboxMinX := bbox.x
      let bboxMinY := bbox.y
      let bboxMaxX := bbox.x + bbox.w
      let bboxMaxY := bbox.y + bbox.h
      let fitsLeft := bboxMaxX ≤ midX
      let fitsRight := bboxMinX ≥ midX
      let fitsTop := bboxMaxY ≤ midY
      let fitsBottom := bboxMinY ≥ midY
      if fitsLeft then
        if fitsTop then 0
        else if fitsBottom then 2
        else -1
      else if fitsRight then
        if fitsTop then 1
        else if fitsBottom then 3
        else -1
      else -1

/-- Source ObjectStore.fitsNode: containment in the loose node bounds. -/
def Store.fitsNode (s : Store) (nodeId : Int) (bbox : BBox) : Bool :=
  let nb := s.pool.getBounds nodeId
  let looseness := s.opts.looseness
  let halfWidth := nb.halfWidth * looseness
  let halfHeight := nb.halfHeight * looseness
  let minX := nb.centerX - halfWidth
  let minY := nb.centerY - halfHeight
  let maxX := nb.centerX + halfWidth
  let maxY := nb.centerY + halfHeight
  bbox.x ≥ minX ∧ bbox.y ≥ minY ∧ bbox.x + bbox.w ≤ maxX ∧ bbox.y + bbox.h ≤ maxY

/-- Source ObjectStore.expandObjectRefs. -/
def Store.expandObjectRefs (s : Store) : Store :=
  let newCapacity := s.objectRefCapacity * 2
  let growN : Array Nat → Array Nat := fun a =>
    if a.size ≥ newCapacity then a else a ++ Array.mkArray (newCapacity - a.size) 0
  let growI : Array Int → Array Int := fun a =>
    if a.size ≥ newCapacity then a else a ++ Array.mkArray (newCapacity - a.size) (-1)
  { s with
    objectRefCapacity := newCapacity
    objectRefHandle := growN s.objectRefHandle
    objectRefNext := growI s.objectRefNext }

/-- Source ObjectStore.obtainObjectRefIndex. -/
def Store.obtainObjectRefIndex (s : Store) : Nat × Store :=
  match s.objectRefFreeList with
  | r :: rest => (r, { s with objectRefFreeList := rest })
  | [] =>
    let s := if s.objectRefUsed ≥ s.objectRefCapacity then s.expandObjectRefs else s
    (s.objectRefUsed, { s with objectRefUsed := s.objectRefUsed + 1 })

/-- Source ObjectStore.attachToNode. -/
def Store.attachToNode (s : Store) (handle : Nat) (nodeId : Int) : Store :=
  let (refIndex, s) := s.obtainObjectRefIndex
  let first := s.pool.getFirstObject nodeId
  let s := { s with
    objectRefHandle := s.objectRefHandle.setD refIndex handle
    objectRefNext := s.objectRefNext.setD refIndex first }
  let pool := (s.pool.setFirstObject nodeId (refIndex : Int)).incrementObjectCount nodeId
  { s with
    pool := pool
    objectRefIndex := s.objectRefIndex.setD handle (refIndex : Int)
    objectNode := s.objectNode.setD handle nodeId }

/-- Source ObjectStore.detachRef. -/
def Store.detachRef (s : Store) (nodeId refIndex prevRef : Int) (handle : Option Nat) : Store :=
  let next := idxGet s.objectRefNext refIndex (-1)
  let s :=
    if prevRef = -1 then { s with pool := s.pool.setFirstObject nodeId next }
    else { s with objectRefNext := idxSet s.objectRefNext prevRef next }
  let s := { s with
    objectRefNext := idxSet s.objectRefNext refIndex (-1)
    objectRefHandle := idxSet s.objectRefHandle refIndex 0 }
  let s :=
    match handle with
    | some h =>
      if h < s.objectRefIndex.size ∧ s.objectRefIndex.getD h (-1) = refIndex then
        { s with
          objectRefIndex := s.objectRefIndex.setD h (-1)
          objectNode := s.objectNode.setD h (-1) }
      else s
    | none => s
  { s with
    objectRefFreeList := (match refIndex with
      | Int.ofNat r => r :: s.objectRefFreeList
      | _ => s.objectRefFreeList)
    pool := s.pool.decrementObjectCount nodeId }

/-- One step of the source purgeHandleFromNode while loop; the walk is
bounded by the reference arena size (a well-formed chain is acyclic, so the
source loop never runs longer than that). -/
def Store.purgeLoop (s : Store) (handle : Nat) (nodeId : Int)
    (current prev : Int) : Nat → Bool × Store
  | 0 => (false, s)
  | fuel + 1 =>
    if current = -1 then (false, s)
    else
      let next := idxGet s.objectRefNext current (-1)
      if idxGet s.objectRefHandle current 0 = handle then
        (true, s.detachRef nodeId current prev (some handle))
      else
        s.purgeLoop handle nodeId next current fuel

/-- Source ObjectStore.purgeHandleFromNode. -/
def Store.purgeHandleFromNode (s : Store) (handle : Nat) (nodeId : Int) : Bool × Store :=
  if nodeId = -1 then (false, s)
  else s.purgeLoop handle nodeId (s.pool.getFirstObject nodeId) (-1)
    (s.objectRefNext.size + 1)

/-- Source ObjectStore.tryMerge: the walk over a child's reference list,
re-attaching every handle to the parent.  As in the source, the next pointer
is read after the attach. -/
def Store.mergeWalk (s : Store) (parentId : Int) (ref : Int) : Nat → Store
  | 0 => s
  | fuel + 1 =>
    if ref = -1 then s
    else
      let handle := idxGet s.objectRefHandle ref 0
      let s := s.attachToNode handle parentId
      s.mergeWalk parentId (idxGet s.objectRefNext ref (-1)) fuel

/-- Source ObjectStore.tryMerge. -/
def Store.tryMerge (s : Store) (nodeId : Int) : Store :=
  let parentId := s.pool.getParent nodeId
  if parentId = -1 then s
  else
    let canMergeTotal := (List.range 4).foldl
      (fun (acc : Bool × Nat) i =>
        let childId := s.pool.getChild parentId i
        if childId = -1 then acc
        else if ¬ s.pool.isLeaf childId then (false, acc.2)
        else (acc.1, acc.2 + s.pool.getObjectCount childId))
      (true, 0)
    if ¬ canMergeTotal.1 ∨ canMergeTotal.2 > s.opts.mergeThreshold then s
    else
      let s := (List.range 4).foldl
        (fun (s : Store) i =>
          let childId := s.pool.getChild parentId i
          if childId = -1 then s
          else
            let s := s.mergeWalk parentId (s.pool.getFirstObject childId)
              (s.objectRefNext.size + 1)
            let s := { s with pool := s.pool.releaseNode childId }
            { s with pool := s.pool.setChild parentId i (-1) }) s
      { s with pool := s.pool.setLeaf parentId true }

/-- Source ObjectStore.detachFromNode. -/
def Store.detachFromNode (s : Store) (handle : Nat) (nodeId : Int) : Store :=
  if nodeId = -1 then s
  else
    let (removed, s) := s.purgeHandleFromNode handle nodeId
    if removed then s.tryMerge nodeId else s

/-- The collection loop at the start of the source redistribute: gather the
chain's handles, capped by the scratch handleStack length
(maxObjectsPerNode * 4). -/
def Store.collectChain (s : Store) (ref : Int) (cap : Nat) : List Nat :=
  match cap with
  | 0 => []
  | cap + 1 =>
    if ref = -1 then []
    else idxGet s.objectRefHandle ref 0 ::
      s.collectChain (idxGet s.objectRefNext ref (-1)) cap

/-- Source ObjectStore.redistribute. -/
def Store.redistribute (s : Store) (nodeId : Int) (depth : Nat) : Store :=
  let handles := s.collectChain (s.pool.getFirstObject nodeId)
    (s.opts.maxObjectsPerNode * 4)
  handles.foldl
    (fun (s : Store) handle =>
      let bb := s.readBoundingBox handle
      let childIndex := s.selectChild nodeId bb depth
      if childIndex ≠ -1 then
        let childId := s.pool.getChild nodeId childIndex.toNat
        if childId ≠ -1 then
          let s := s.detachFromNode handle nodeId
          s.attachToNode handle childId
        else s
      else s) s

/-- Source ObjectStore.splitNode; `none` is the propagated node pool
exhaustion error. -/
def Store.splitNode (s : Store) (nodeId : Int) (depth : Nat) : Option Store :=
  let s := { s with pool := s.pool.setLeaf nodeId false }
  let nb := s.pool.getBounds nodeId
  let halfWidth := nb.halfWidth / 2
  let halfHeight := nb.halfHeight / 2
  let centerX := nb.centerX
  let centerY := nb.centerY
  let childDepth := depth + 1
  let childCenters : List (ℚ × ℚ) :=
    [(centerX - halfWidth, centerY - halfHeight),
     (centerX + halfWidth, centerY - halfHeight),
     (centerX - halfWidth, centerY + halfHeight),
     (centerX + halfWidth, centerY + halfHeight)]
  let alloc := (List.range 4).foldl
    (fun (acc : Option Store) i =>
      match acc with
      | none => none
      | some s =>
        match childCenters.getD i (0, 0) with
        | (cx, cy) =>
          match s.pool.allocateNode nodeId childDepth
            { centerX := cx, centerY := cy, halfWidth := halfWidth, halfHeight := halfHeight } with
          | none => none
          | some (childId, pool) =>
            some { s with pool := pool.setChild nodeId i (childId : Int) })
    (some s)
  match alloc with
  | none => none
  | some s => some (s.redistribute nodeId depth)

/-- Source ObjectStore.insertHandle main loop.  Iterations are bounded by
the source's own depth escape (depth > maxDepth + 5): the fuel starts at
maxDepth + 6 and the escape always fires before the fuel runs out, so the
fuel-exhausted branch (which behaves exactly like the escape) is dead. -/
def Store.insertLoop (s : Store) (handle : Nat) (bbox : BBox)
    (nodeId : Int) (depth : Nat) : Nat → Option (Int × Store)
  | 0 => some (nodeId, s.attachToNode handle nodeId)
  | fuel + 1 =>
    let step : Option (Store × Int × Nat) ⊕ Option (Int × Store) :=
      if s.pool.isLeaf nodeId then
        let nodeCount := s.pool.getObjectCount nodeId
        if nodeCount < s.opts.maxObjectsPerNode ∨ depth ≥ s.opts.maxDepth then
          Sum.inr (some (nodeId, s.attachToNode handle nodeId))
        else
          match s.splitNode nodeId depth with
          | none => Sum.inr none
          | some s => Sum.inl (some (s, nodeId, depth))
      else Sum.inl (some (s, nodeId, depth))
    match step with
    | Sum.inr r => r
    | Sum.inl none => none
    | Sum.inl (some (s, nodeId, depth)) =>
      let childIndex := s.selectChild nodeId bbox depth
      if childIndex = -1 then some (nodeId, s.attachToNode handle nodeId)
      else
        let childId := s.pool.getChild nodeId childIndex.toNat
        if childId = -1 then some (nodeId, s.attachToNode handle nodeId)
        else
          let nodeId := childId
          let depth := depth + 1
          if depth > s.opts.maxDepth + 5 then
            some (nodeId, s.attachToNode handle nodeId)
          else
            s.insertLoop handle bbox nodeId depth fuel

/-- Source ObjectStore.insertHandle. -/
def Store.insertHandle (s : Store) (handle : Nat) (bbox : BBox) : Option (Int × Store) :=
  let s := s.ensureRootBounds bbox
  s.insertLoop handle bbox s.rootNodeId 0 (s.opts.maxDepth + 6)

/-- Source ObjectStore.insert; `none` propagates node pool exhaustion. -/
def Store.insert (s : Store) (objectId : Nat) (bbox : BBox) (flags : Nat) :
    Option (InsertionResult × Store) :=
  let (handle, s) := s.obtainHandle objectId
  let s := s.writeBoundingBox handle bbox
  let s := s.ensureRootBounds bbox
  let nodeId0 := s.objectNode.getD handle (-1)
  let s :=
    if nodeId0 ≠ -1 then (s.purgeHandleFromNode handle nodeId0).2
    else s
  match s.insertHandle handle bbox with
  | none => none
  | some (nodeId, s) =>
    let record : ObjectRecord :=
      { id := objectId, handle := handle, nodeId := nodeId, flags := flags
        updateTicks := 0, windowTicks := 0 }
    let s := { s with
      objectIndex := mapSet s.objectIndex objectId record
      objectNode := s.objectNode.setD handle nodeId
      objectFlags := s.objectFlags.setD handle flags }
    some ({ handle := (handle : Int), nodeId := nodeId, flags := flags
            inserted := true }, s)

/-- Source ObjectStore.remove. -/
def Store.remove (s : Store) (objectId : Nat) : Store :=
  match mapGet s.objectIndex objectId with
  | none => s
  | some record =>
    let s := s.detachFromNode record.handle record.nodeId
    { s with
      objectFlags := s.objectFlags.setD record.handle
        ((s.objectFlags.getD record.handle 0) ||| flagDeleted)
      handleToId := growSet s.handleToId record.handle none none
      objectIndex := mapDel s.objectIndex objectId
      objectNode := s.objectNode.setD record.handle (-1)
      objectRefIndex := s.objectRefIndex.setD record.handle (-1)
      handleFreeList := record.handle :: s.handleFreeList
      usedHandles := s.usedHandles - 1 }

/-- Source ObjectStore.get. -/
def Store.get (s : Store) (objectId : Nat) : Option DrawObj :=
  match s.externalGetter with
  | some getter => getter objectId
  | none => mapGet s.objectStore objectId

/-- Source ObjectStore.bumpDynamicCounters (Uint16 counters). -/
def Store.bumpDynamicCounters (s : Store) (handle : Nat) : Store :=
  let updateCount := (s.objectUpdateCounter.getD handle 0 + 1) % 65536
  let s := { s with objectUpdateCounter := s.objectUpdateCounter.setD handle updateCount }
  let windowCount := (s.objectWindowCounter.getD handle 0 + 1) % 65536
  let s := { s with objectWindowCounter := s.objectWindowCounter.setD handle windowCount }
  let s :=
    if windowCount ≥ s.opts.dynamicUpdateWindow then
      { s with
        objectUpdateCounter := s.objectUpdateCounter.setD handle 0
        objectWindowCounter := s.objectWindowCounter.setD handle 0 }
    else s
  if updateCount ≥ s.opts.dynamicUpdateThreshold then
    if (s.objectFlags.getD handle 0) &&& flagDynamic = 0 then
      let s :=
        if s.dynamicHandleCount ≥ s.dynamicHandles.size then
          { s with dynamicHandles :=
              s.dynamicHandles ++ Array.mkArray s.dynamicHandles.size 0 }
        else s
      { s with
        objectFlags := s.objectFlags.setD handle
          ((s.objectFlags.getD handle 0) ||| flagDynamic)
        dynamicHandles := s.dynamicHandles.setD s.dynamicHandleCount handle
        dynamicHandleCount := s.dynamicHandleCount + 1 }
    else s
  else s

/-- The reference-list walk inside the source findInBounds while loop.
Returns the match count, the output buffer, the threaded store (stale
references are purged in place), the number of traversed refs, and whether
the walk returned early because the output buffer filled up.  The recursion
is bounded exactly by the source guard traversedObjs < maxTraverse. -/
def Store.walkRefs (s : Store) (bounds : BBox) (includeDynamic modeAll : Bool)
    (nodeId : Int) (ref prevRef : Int) (traversed maxTraverse : Nat)
    (count : Nat) (out : Array Nat) (outLen : Nat) :
    Nat → Nat × Array Nat × Store × Nat × Bool
  | 0 => (count, out, s, traversed, false)
  | fuel + 1 =>
  if ref = -1 ∨ ¬ traversed < maxTraverse then (count, out, s, traversed, false)
  else
    let traversed := traversed + 1
    if ref < 0 ∨ ref ≥ (s.objectRefHandle.size : Int) then (count, out, s, traversed, false)
    else
      let handle := idxGet s.objectRefHandle ref 0
      if handle ≥ s.objectCapacity ∨ (s.handleToId.getD handle none) = none ∨
          s.objectNode.getD handle (-1) ≠ nodeId ∨
          (s.objectFlags.getD handle 0) &&& flagDeleted ≠ 0 then
        let nextRef := idxGet s.objectRefNext ref (-1)
        let s := s.detachRef nodeId ref prevRef (some handle)
        s.walkRefs bounds includeDynamic modeAll nodeId nextRef prevRef
          traversed maxTraverse count out outLen fuel
      else
        let flags := s.objectFlags.getD handle 0
        let hit :=
          (modeAll ∨ flags &&& flagDeleted = 0) ∧
          bboxIntersects (s.readBoundingBox handle) bounds = true ∧
          (includeDynamic ∨ flags &&& flagDynamic = 0)
        if hit then
          let out := out.setD count handle
          let count := count + 1
          if count ≥ outLen then (count, out, s, traversed, true)
          else
            s.walkRefs bounds includeDynamic modeAll nodeId
              (idxGet s.objectRefNext ref (-1)) ref traversed maxTraverse count out outLen fuel
        else
          s.walkRefs bounds includeDynamic modeAll nodeId
            (idxGet s.objectRefNext ref (-1)) ref traversed maxTraverse count out outLen fuel

/-- The children pushed by the source findInBounds after a node's reference
list has been walked, in push order (child 0 first). -/
def Store.nodeChildren (s : Store) (nodeId : Int) : List Int :=
  ((List.range 4).map (fun i => s.pool.getChild nodeId i)).filter (fun c => c ≠ -1)

/-- The source findInBounds main while loop over the explicit node stack
(modelled as a list whose head is the stack top).  The nodeVisitCount abort
(more than 10000 visited nodes returns 0) is kept verbatim; it also bounds
the recursion. -/
def Store.findLoop (s : Store) (bounds : BBox) (includeDynamic modeAll : Bool)
    (stack : List Int) (visits count : Nat) (out : Array Nat) (outLen : Nat) :
    Nat → Nat × Array Nat × Store
  | 0 => (count, out, s)
  | fuel + 1 =>
    match stack with
    | [] => (count, out, s)
    | nodeId :: rest =>
      let visits' := visits + 1
      if visits' > 10000 then (0, out, s)
      else if ¬ s.nodeIntersects nodeId bounds then
        s.findLoop bounds includeDynamic modeAll rest visits' count out outLen fuel
      else
        let firstRef := s.pool.getFirstObject nodeId
        let expectedObjCount := s.pool.getObjectCount nodeId
        let maxTraverse := expectedObjCount * 2 + 10
        match s.walkRefs bounds includeDynamic modeAll nodeId firstRef (-1)
          0 maxTraverse count out outLen (maxTraverse + 1) with
        | (count', out', s', traversed, full) =>
          if full then (count', out', s')
          else if traversed ≥ maxTraverse then (count', out', s')
          else
            s'.findLoop bounds includeDynamic modeAll
              ((s'.nodeChildren nodeId).reverse ++ rest) visits' count' out' outLen fuel

/-- Source ObjectStore.findInBounds.  The caller-supplied Uint32Array out
buffer is modelled by its length: it starts zero-filled and is returned
together with the match count and the threaded store. -/
def Store.findInBounds (s : Store) (bounds : BBox) (outLen : Nat)
    (options : FindOptions) : Nat × Array Nat × Store :=
  let includeDynamic := options.includeDynamic.getD true
  let modeAll := options.modeAll.getD false
  s.findLoop bounds includeDynamic modeAll [s.rootNodeId] 0 0
    (Array.mkArray outLen 0) outLen 10002

/-- The result set of a findInBounds call: the first count slots of the
output buffer. -/
def Store.findResults (s : Store) (bounds : BBox) (outLen : Nat)
    (options : FindOptions) : List Nat :=
  match s.findInBounds bounds outLen options with
  | (count, out, _) => out.toList.take count

/-- Source ObjectStore.updateBoundingBox; `none` propagates node pool
exhaustion from the re-insert path. -/
def Store.updateBoundingBox (s : Store) (objectId : Nat) (bbox : BBox) :
    Option (UpdateResult × Store) :=
  match mapGet s.objectIndex objectId with
  | none =>
    some ({ handle := -1, nodeId := -1, flags := 0, status := UpdateStatus.failed }, s)
  | some record =>
    let handle := record.handle
    let currentNode := record.nodeId
    let s := s.writeBoundingBox handle bbox
    let record := { record with flags := s.objectFlags.getD handle 0 }
    let moved? : Option (Int × ObjectRecord × Store × UpdateStatus) :=
      if ¬ s.fitsNode currentNode bbox then
        let s := s.detachFromNode handle currentNode
        match s.insertHandle handle bbox with
        | none => none
        | some (newNode, s) =>
          some (newNode,
            { record with nodeId := newNode },
            { s with objectNode := s.objectNode.setD handle newNode },
            UpdateStatus.moved)
      else some (currentNode, record, s, UpdateStatus.updated)
    match moved? with
    | none => none
    | some (newNode, record, s, status) =>
      let s := { s with objectIndex := mapSet s.objectIndex objectId record }
      let s := { s with
        objectFlags := s.objectFlags.setD handle
          ((s.objectFlags.getD handle 0) ||| flagDirty ||| flagTileCoverageDirty) }
      let s := s.bumpDynamicCounters handle
      some ({ handle := (handle : Int), nodeId := newNode
              flags := s.objectFlags.getD handle 0, status := status }, s)

/-! ## Chunk cache (source ChunkManager and Chunk) -/

/-- Source LODLevel bands. -/
inductive LODLevel where
  | Near
  | Mid
  | Far
  | Overview
  deriving DecidableEq, Repr, Inhabited

/-- The viewport fields the chunk cache reads (source Viewport). -/
structure Viewport where
  scale : ℚ
  lodLevel : LODLevel
  deriving DecidableEq, Repr, Inhabited

/-- Source CHUNK_SIZE. -/
def CHUNK_SIZE : ℚ := 1024

/-- Source ChunkSegment.  The source chunkKey string "cx,cy" is modelled by
the integer pair it encodes (split(',') / parseInt round-trip). -/
structure ChunkSegment where
  objectId : Nat
  chunkKey : Int × Int
  localX : ℚ
  localY : ℚ
  clipRect : BBox
  zIndex : Int
  lod : LODLevel
  deriving DecidableEq, Repr, Inhabited

/-- Source Chunk.  Only state observable by the claims is kept: the segment
map (keyed by objectId:chunkKey), the dirty / previousLod /
updatedLodContent flags, and the number of children of the live container
(set by rebuildLive; the PIXI scene objects themselves are external
rendering state). -/
structure Chunk where
  cx : Int
  cy : Int
  segments : List ((Nat × Int × Int) × ChunkSegment)
  isDirty : Bool
  previousLod : Option LODLevel
  updatedLodContent : Bool
  liveChildren : Nat
  deriving Inhabited

/-- Source Chunk constructor. -/
def Chunk.create (cx cy : Int) : Chunk where
  cx := cx
  cy := cy
  segments := []
  isDirty := true
  previousLod := none
  updatedLodContent := false
  liveChildren := 0

/-- Source Chunk.addSegment. -/
def Chunk.addSegment (c : Chunk) (segment : ChunkSegment) : Chunk :=
  let segmentKey := (segment.objectId, segment.chunkKey)
  if (mapGet' c.segments segmentKey).isSome then c
  else
    { c with
      segments := c.segments ++ [(segmentKey, segment)]
      isDirty := true
      updatedLodContent := true }

/-- Source Chunk.removeSegmentsByObjectId (key.startsWith objectId ":"
recognises exactly the keys whose object component is objectId). -/
def Chunk.removeSegmentsByObjectId (c : Chunk) (objectId : Nat) : Chunk :=
  let changed := c.segments.any (fun p => p.1.1 == objectId)
  let segments := c.segments.filter (fun p => p.1.1 != objectId)
  if changed then
    { c with segments := segments, isDirty := true, updatedLodContent := true }
  else { c with segments := segments }

/-- Source Chunk.computeLOD.  The source compares
sqrt(w^2 + h^2) * scale against the pixel thresholds { 130, 60, 30 }; with a
non-negative scale that is equivalent to comparing the squares, which stays
inside ℚ. -/
def computeLOD (obj : DrawObj) (viewport : Viewport) : LODLevel :=
  let bbox := obj.bbox.getD default
  let pxDiagSq := (bbox.w ^ 2 + bbox.h ^ 2) * viewport.scale ^ 2
  if pxDiagSq ≥ 130 ^ 2 then LODLevel.Near
  else if pxDiagSq ≥ 60 ^ 2 then LODLevel.Mid
  else if pxDiagSq ≥ 30 ^ 2 then LODLevel.Far
  else LODLevel.Overview

/-- Source Chunk.rebuildLive: the live container is refilled with one child
per segment whose object resolves and yields a renderable PIXI object; the
drawable predicate abstracts the external drawObjectToPixi renderer (which
returns null for undrawable objects). -/
def Chunk.rebuildLive (c : Chunk) (getObject : Nat → Option DrawObj)
    (drawable : DrawObj → Bool) : Chunk :=
  { c with liveChildren :=
      (c.segments.filter (fun p =>
        match getObject p.2.objectId with
        | some obj => drawable obj
        | none => false)).length }

/-- Source Chunk.update.  Returns the updated chunk plus two booleans
recording whether rebuildLive respectively rebuildRenderTexture ran during
this call (rebuildRenderTexture renders into the external texture and leaves
the modelled state unchanged). -/
def Chunk.update (c : Chunk) (viewport : Viewport)
    (getObject : Nat → Option DrawObj) (drawable : DrawObj → Bool) :
    Chunk × Bool × Bool :=
  let lod := viewport.lodLevel
  let c :=
    if c.previousLod ≠ none ∧ c.previousLod ≠ some lod then
      if (lod = LODLevel.Near ∨ c.previousLod = some LODLevel.Near) ∧
          c.updatedLodContent then
        { c with isDirty := true, updatedLodContent := false }
      else c
    else c
  let c := { c with previousLod := some lod }
  let c := { c with segments := c.segments.map (fun p =>
    match getObject p.2.objectId with
    | some obj => (p.1, { p.2 with lod := computeLOD obj viewport })
    | none => p) }
  if lod = LODLevel.Near then
    if c.isDirty || c.liveChildren == 0 then
      ({ c.rebuildLive getObject drawable with isDirty := false }, true, false)
    else (c, false, false)
  else
    if c.isDirty then ({ c with isDirty := false }, false, true)
    else (c, false, false)

/-- Source ChunkManager state (the PIXI world container and renderer are
external). -/
structure ChunkManager where
  chunks : List ((Int × Int) × Chunk)
  objectToChunks : List (Nat × List (Int × Int))
  objects : List (Nat × DrawObj)
  deriving Inhabited

/-- Source ChunkManager constructor. -/
def ChunkManager.create : ChunkManager :=
  { chunks := [], objectToChunks := [], objects := [] }

/-- The inclusive integer range [lo, hi] driving the source double for loop. -/
def intRange (lo hi : Int) : List Int :=
  (List.range (hi + 1 - lo).toNat).map (fun i => lo + (i : Int))

/-- Source ChunkManager.getChunksForBbox: chunk coordinates touched by the
box, via floor(x / CHUNK_SIZE) .. floor((x + w - 1) / CHUNK_SIZE) and the
same vertically, enumerated cx outer, cy inner. -/
def getChunksForBbox (bbox : BBox) : List (Int × Int) :=
  let left := Int.floor (bbox.x / CHUNK_SIZE)
  let right := Int.floor ((bbox.x + bbox.w - 1) / CHUNK_SIZE)
  let top := Int.floor (bbox.y / CHUNK_SIZE)
  let bottom := Int.floor ((bbox.y + bbox.h - 1) / CHUNK_SIZE)
  (intRange left right).flatMap (fun cx =>
    (intRange top bottom).map (fun cy => (cx, cy)))

/-- Source ChunkManager.computeSegmentsForObject: one segment per overlapped
chunk carrying the object∩chunk intersection rectangle in object-local
coordinates, skipped when the intersection is empty. -/
def computeSegmentsForObject (obj : DrawObj) : List ChunkSegment :=
  match obj.bbox with
  | none => []
  | some bbox =>
    (getChunksForBbox bbox).filterMap (fun key =>
      let cx := key.1
      let cy := key.2
      let chunkX := (cx : ℚ) * CHUNK_SIZE
      let chunkY := (cy : ℚ) * CHUNK_SIZE
      let ix := max bbox.x chunkX
      let iy := max bbox.y chunkY
      let ax := min (bbox.x + bbox.w) (chunkX + CHUNK_SIZE)
      let ay := min (bbox.y + bbox.h) (chunkY + CHUNK_SIZE)
      if ax ≤ ix ∨ ay ≤ iy then none
      else
        some { objectId := obj.id
               chunkKey := key
               localX := ix - chunkX
               localY := iy - chunkY
               clipRect := { x := ix - bbox.x, y := iy - bbox.y, w := ax - ix, h := ay - iy }
               zIndex := obj.zIndex.getD 0
               lod := LODLevel.Near })

/-- Source ChunkManager.addObjects. -/
def ChunkManager.addObjects (m : ChunkManager) (objects : List DrawObj) : ChunkManager :=
  objects.foldl
    (fun (m : ChunkManager) obj =>
      match obj.bbox with
      | none => m
      | some _ =>
        let m := { m with objects := mapSet m.objects obj.id obj }
        let m :=
          match mapGet m.objectToChunks obj.id with
          | none => m
          | some oldChunkKeys =>
            { m with chunks := m.chunks.map (fun p =>
                if oldChunkKeys.contains p.1 then
                  (p.1, p.2.removeSegmentsByObjectId obj.id)
                else p) }
        let segments := computeSegmentsForObject obj
        let step := segments.foldl
          (fun (acc : ChunkManager × List (Int × Int)) segment =>
            let (m, newChunkKeys) := acc
            let m :=
              if (mapGet' m.chunks segment.chunkKey).isSome then m
              else { m with chunks := m.chunks ++
                [(segment.chunkKey, Chunk.create segment.chunkKey.1 segment.chunkKey.2)] }
            let m := { m with chunks := m.chunks.map (fun p =>
              if p.1 = segment.chunkKey then (p.1, p.2.addSegment segment) else p) }
            let newChunkKeys :=
              if newChunkKeys.contains segment.chunkKey then newChunkKeys
              else newChunkKeys ++ [segment.chunkKey]
            (m, newChunkKeys))
          (m, [])
        { step.1 with objectToChunks := mapSet step.1.objectToChunks obj.id step.2 })
    m

/-- PIXI Rectangle.intersects: strictly positive overlap. -/
def rectIntersects (a b : BBox) : Bool :=
  max a.x b.x < min (a.x + a.w) (b.x + b.w) ∧
  max a.y b.y < min (a.y + a.h) (b.y + b.h)

/-- The world-space rectangle of a chunk (sprite position cx * CHUNK_SIZE and
the CHUNK_SIZE × CHUNK_SIZE extent used by updateVisibleChunks). -/
def Chunk.worldRect (c : Chunk) : BBox :=
  { x := (c.cx : ℚ) * CHUNK_SIZE, y := (c.cy : ℚ) * CHUNK_SIZE
    w := CHUNK_SIZE, h := CHUNK_SIZE }

/-- Source ChunkManager.updateVisibleChunks.  Besides the updated manager it
returns how many chunk rebuilds (rebuildLive or rebuildRenderTexture) the
call performed. -/
def ChunkManager.updateVisibleChunks (m : ChunkManager) (viewport : Viewport)
    (visible : BBox) (drawable : DrawObj → Bool) : ChunkManager × Nat :=
  let getObject : Nat → Option DrawObj := fun id => mapGet m.objects id
  let updated := m.chunks.map (fun p =>
    if rectIntersects visible p.2.worldRect then
      match p.2.update viewport getObject drawable with
      | (c, rebuiltLive, rebuiltTexture) =>
        ((p.1, c), (if rebuiltLive then 1 else 0) + (if rebuiltTexture then 1 else 0))
    else ((p.1, p.2), 0))
  ({ m with chunks := updated.map (fun q => q.1) },
    (updated.map (fun q => q.2)).sum)

/-- Source ChunkManager.getChunksSize. -/
def ChunkManager.getChunksSize (m : ChunkManager) : Nat :=
  m.chunks.length

/-! ## Concrete fixtures used by witnesses and counterexamples -/

/-- Small capacities keep concrete evaluation cheap; every field is a
caller-facing tunable of LooseObjectStoreOptions. -/
def wopts : Options where
  minNodeSize := 256
  maxDepth := 8
  maxObjectsPerNode := 32
  mergeThreshold := 12
  looseness := 3/2
  oversizedNodeDepthCap := 4
  nodePoolSize := 8
  objectCapacity := 8
  objectRefCapacity := 8
  tileChunkSize := 32
  dynamicUpdateThreshold := 6
  dynamicUpdateWindow := 16

def boxA : BBox := { x := 0, y := 0, w := 10, h := 10 }

def boxB : BBox := { x := 1000, y := 1000, w := 10, h := 10 }

def boxC : BBox := { x := 2000, y := 0, w := 10, h := 10 }

/-! ## C6: arena exhaustion behaviour -/

/-- Options that exhaust the node pool on the second insert: the pool holds
only the root, and a single object per node forces a split. -/
def c6opts : Options :=
  { wopts with nodePoolSize := 1, maxObjectsPerNode := 1 }

/-- C6 counterexample: with a single-node pool, the second insert must split
the root, the node pool allocation throws (ObjectStoreNodePool exhausted),
and the insert fails — no doubling growth happens for the node pool, so an
insert can fail due to arena exhaustion. -/
theorem c6_insert_throws_on_pool_exhaustion :
    (((freshStore c6opts).insert 1 boxA 0).bind
      (fun p => p.2.insert 2 { x := 20, y := 0, w := 10, h := 10 } 0)).isSome = false := by
  with_unfolding_all rfl

/-- C6 (amended): the handle arena and the object-reference arena grow by
doubling when exhausted and the operation succeeds, but the quadtree node
pool does not grow — obtaining a node from an exhausted pool throws. -/
theorem c6_arena_growth_amended :
    (∀ (s : Store) (id : Nat), mapGet s.objectIndex id = none →
      s.handleFreeList = [] → s.usedHandles ≥ s.objectCapacity →
      s.objectCapacity = s.handleToId.size →
      (s.obtainHandle id).1 = s.usedHandles ∧
      (s.obtainHandle id).2.objectCapacity = s.objectCapacity * 2) ∧
    (∀ s : Store, s.objectRefFreeList = [] → s.objectRefUsed ≥ s.objectRefCapacity →
      (s.obtainObjectRefIndex).1 = s.objectRefUsed ∧
      (s.obtainObjectRefIndex).2.objectRefCapacity = s.objectRefCapacity * 2) ∧
    (∀ p : NodePool, p.freeList = [] → p.nodeCount ≥ p.capacity →
      p.obtainNodeId = none) := by
  refine ⟨?_, ?_, ?_⟩
  · intro s id hmap hfree hused hcap
    simp only [Store.obtainHandle, hmap, hfree, Store.expandHandles, Store.resizeHandles,
      if_pos hused, if_pos hcap]
    exact ⟨trivial, trivial⟩
  · intro s hfree hused
    simp only [Store.obtainObjectRefIndex, hfree, Store.expandObjectRefs, if_pos hused]
    exact ⟨trivial, trivial⟩
  · intro p hfree hcount
    simp only [NodePool.obtainNodeId, hfree, if_pos hcount]

/-- C6 witness: the amended growth facts applied at concrete exhausted
arenas. -/
theorem c6_arena_growth_witness :
    (let s := { freshStore wopts with usedHandles := 8 };
      (s.obtainHandle 1).1 = 8 ∧ (s.obtainHandle 1).2.objectCapacity = 16) ∧
    (let s := { freshStore wopts with objectRefUsed := 8 };
      (s.obtainObjectRefIndex).1 = 8 ∧
      (s.obtainObjectRefIndex).2.objectRefCapacity = 16) ∧
    (NodePool.create 0).obtainNodeId = none := by
  refine ⟨?_, ?_, ?_⟩
  · exact c6_arena_growth_amended.1 { freshStore wopts with usedHandles := 8 } 1
      (by with_unfolding_all rfl) (by with_unfolding_all rfl)
      (by with_unfolding_all rfl) (by with_unfolding_all rfl)
  · exact c6_arena_growth_amended.2.1 { freshStore wopts with objectRefUsed := 8 }
      (by with_unfolding_all rfl) (by with_unfolding_all rfl)
  · exact c6_arena_growth_amended.2.2 (NodePool.create 0) (by with_unfolding_all rfl)
      (by with_unfolding_all rfl)

/-! ## C3: the three-object chunk scenario -/

/-- The three scenario objects. -/
def objA : DrawObj := { id := 1, bbox := some boxA, zIndex := none }

def objB : DrawObj := { id := 2, bbox := some boxB, zIndex := none }

def objC : DrawObj := { id := 3, bbox := some boxC, zIndex := none }

/-- The chunk cache after declaring the three scenario objects. -/
def cm3 : ChunkManager := ChunkManager.create.addObjects [objA, objB, objC]

/-- The spatial index after inserting the three scenario boxes. -/
def s3store : Store :=
  ((((freshStore wopts).insert 1 boxA 0).bind (fun p => p.2.insert 2 boxB 0) |>.bind
    (fun p => p.2.insert 3 boxC 0)).map (fun p => p.2)).getD (freshStore wopts)

/-- C3 counterexample: the scenario produces 2 chunks, not the 3 the claim
demands — box `(1000, 1000, 10, 10)` still lies inside chunk (0,0) because
1000 < 1024, so the first two objects share a chunk. -/
theorem c3_counterexample :
    ChunkManager.getChunksSize cm3 = 2 ∧ ¬ ChunkManager.getChunksSize cm3 = 3 := by
  constructor
  · with_unfolding_all rfl
  · intro h
    have h2 : ChunkManager.getChunksSize cm3 = 2 := by with_unfolding_all rfl
    rw [h2] at h
    exact absurd h (by decide)

/-- C3 (amended): the scenario produces exactly 2 distinct chunks — chunk
(0,0) holding the segments of the first two objects and chunk (1,0) holding
the third object's single segment — and the spatial-index query over
(0, 0, 20, 20) returns exactly the first object's handle (handle 0). -/
theorem c3_scenario_amended :
    cm3.chunks.map (fun p => (p.1, p.2.segments.map (fun q => q.1.1))) =
      [((0, 0), [1, 2]), ((1, 0), [3])] ∧
    s3store.findResults { x := 0, y := 0, w := 20, h := 20 } 8 {} = [0] ∧
    (mapGet s3store.objectIndex 1).map (fun r => r.handle) = some 0 := by
  refine ⟨?_, ?_, ?_⟩
  · with_unfolding_all rfl
  · with_unfolding_all rfl
  · with_unfolding_all rfl

/-! ## C10: output buffer discipline of findInBounds -/

/-- The reference walk keeps the buffer size, and its match count stays
strictly below the buffer length unless it reports the buffer full, in which
case the count still does not exceed the length. -/
theorem walkRefs_count_le (bounds : BBox) (incl modeAll : Bool) (fuel : Nat) :
    ∀ (s : Store) (nodeId ref prevRef : Int) (traversed maxTraverse count : Nat)
      (out : Array Nat) (outLen : Nat), count < outLen →
      (let r := s.walkRefs bounds incl modeAll nodeId ref prevRef traversed
        maxTraverse count out outLen fuel
       (r.2.2.2.2 = false → r.1 < outLen) ∧ r.1 ≤ outLen ∧ r.2.1.size = out.size) := by
  induction fuel with
  | zero =>
    intro s nodeId ref prevRef traversed maxTraverse count out outLen hc
    exact ⟨fun _ => hc, le_of_lt hc, rfl⟩
  | succ fuel ih =>
    intro s nodeId ref prevRef traversed maxTraverse count out outLen hc
    simp only [Store.walkRefs]
    split
    · exact ⟨fun _ => hc, le_of_lt hc, rfl⟩
    · split
      · exact ⟨fun _ => hc, le_of_lt hc, rfl⟩
      · split
        · exact ih _ _ _ _ _ _ _ _ _ hc
        · split
          · split
            · refine ⟨by simp, by simp; omega, by simp⟩
            · rename_i hnotfull
              have h1 : count + 1 < outLen := by omega
              have := ih (s) nodeId (idxGet s.objectRefNext ref (-1)) ref
                (traversed + 1) maxTraverse (count + 1)
                (out.setD count (idxGet s.objectRefHandle ref 0)) outLen h1
              simp only at this
              refine ⟨this.1, this.2.1, by rw [this.2.2, Array.size_setD]⟩
          · exact ih _ _ _ _ _ _ _ _ _ hc

/-- The traversal loop of findInBounds never pushes the match count past
the buffer length once it starts strictly below it, and the buffer keeps its
size. -/
theorem findLoop_count_le (bounds : BBox) (incl modeAll : Bool) (fuel : Nat) :
    ∀ (s : Store) (stack : List Int) (visits count : Nat) (out : Array Nat)
      (outLen : Nat), count < outLen →
      (let r := s.findLoop bounds incl modeAll stack visits count out outLen fuel
       r.1 ≤ outLen ∧ r.2.1.size = out.size) := by
  induction fuel with
  | zero =>
    intro s stack visits count out outLen hc
    exact ⟨le_of_lt hc, rfl⟩
  | succ fuel ih =>
    intro s stack visits count out outLen hc
    match stack with
    | [] => exact ⟨le_of_lt hc, rfl⟩
    | nodeId :: rest =>
      simp only [Store.findLoop]
      split
      · exact ⟨Nat.zero_le _, rfl⟩
      · split
        · exact ih _ _ _ _ _ _ hc
        · have hw := walkRefs_count_le bounds incl modeAll
            (s.pool.getObjectCount nodeId * 2 + 10 + 1) s nodeId
            (s.pool.getFirstObject nodeId) (-1) 0
            (s.pool.getObjectCount nodeId * 2 + 10) count out outLen hc
          simp only at hw
          rcases hww : s.walkRefs bounds incl modeAll nodeId
            (s.pool.getFirstObject nodeId) (-1) 0
            (s.pool.getObjectCount nodeId * 2 + 10) count out outLen
            (s.pool.getObjectCount nodeId * 2 + 10 + 1) with
            ⟨count', out', s', traversed, full⟩
          rw [hww] at hw
          simp only
          split
          · exact ⟨hw.2.1, hw.2.2⟩
          · split
            · exact ⟨hw.2.1, hw.2.2⟩
            · rename_i hfull _
              have hlt : count' < outLen := hw.1 (by simp_all)
              have := ih s' ((s'.nodeChildren nodeId).reverse ++ rest)
                (visits + 1) count' out' outLen hlt
              simp only at this
              exact ⟨this.1, by rw [this.2, hw.2.2]⟩

/-- C10 counterexample: with a zero-length output buffer and one matching
object, findInBounds returns count 1, exceeding the buffer length 0 (the
out-of-range Uint32Array write is silently dropped, but the counter still
advances and the full-buffer early return fires after it). -/
theorem c10_zero_buffer_count_exceeds :
    ((((freshStore wopts).insert 1 boxA 0).map (fun p => p.2)).getD
      (freshStore wopts) |>.findInBounds { x := 0, y := 0, w := 20, h := 20 } 0 {}).1 = 1 := by
  with_unfolding_all rfl

/-- C10 (amended): for every state, query and nonempty output buffer,
findInBounds returns a count never exceeding the buffer length and the
buffer keeps exactly its length (so at most outLen handles are written);
a zero-length buffer can instead report count 1 while writing nothing. -/
theorem c10_find_count_bounded (s : Store) (bounds : BBox) (outLen : Nat)
    (options : FindOptions) (h : 1 ≤ outLen) :
    (s.findInBounds bounds outLen options).1 ≤ outLen ∧
    (s.findInBounds bounds outLen options).2.1.size = outLen := by
  have := findLoop_count_le bounds (options.includeDynamic.getD true)
    (options.modeAll.getD false) 10002 s [s.rootNodeId] 0 0
    (Array.mkArray outLen 0) outLen h
  simp only at this
  exact ⟨this.1, by rw [Store.findInBounds]; exact this.2.trans (Array.size_mkArray _ _)⟩

/-- C10 witness: the bound applied to a concrete store, query and buffer. -/
theorem c10_find_count_bounded_witness :
    (s3store.findInBounds { x := 0, y := 0, w := 20, h := 20 } 4 {}).1 ≤ 4 ∧
    (s3store.findInBounds { x := 0, y := 0, w := 20, h := 20 } 4 {}).2.1.size = 4 :=
  c10_find_count_bounded s3store { x := 0, y := 0, w := 20, h := 20 } 4 {} (by omega)

/-! ## Array and bit helper lemmas -/

theorem getD_setD_eq (a : Array α) (i : Nat) (v d : α) (h : i < a.size) :
    (a.setD i v).getD i d = v := by
  simp [Array.setD, Array.getD, h]

theorem getD_setD_ne (a : Array α) (i j : Nat) (v d : α) (h : i ≠ j) :
    (a.setD i v).getD j d = a.getD j d := by
  unfold Array.setD
  split
  · rename_i hi
    unfold Array.getD
    by_cases hj : j < a.size
    · rw [dif_pos (by simpa using hj), dif_pos hj]
      exact Array.getElem_set_ne a ⟨i, hi⟩ v (by simpa using hj) h
    · rw [dif_neg (by simpa using hj), dif_neg hj]
  · rfl

theorem and_two_of_or_four (f : Nat) :
    (f ||| flagDirty ||| flagTileCoverageDirty) &&& flagDynamic = f &&& flagDynamic := by
  simp only [flagDirty, flagTileCoverageDirty, flagDynamic, Nat.and_distrib_right]
  simp [show (4 : Nat) &&& 2 = 0 from rfl, show (32 : Nat) &&& 2 = 0 from rfl]

theorem and_two_of_or_two (f : Nat) : (f ||| flagDynamic) &&& flagDynamic ≠ 0 := by
  intro hz
  have hbit := congrArg (fun n => n.testBit 1) hz
  simp only [flagDynamic, Nat.testBit_and, Nat.testBit_or, Nat.zero_testBit] at hbit
  rw [show Nat.testBit 2 1 = true from rfl] at hbit
  simp at hbit


/-! ## C9: dynamic reclassification counters -/

theorem bump_fields (t : Store) (h : Nat) :
    ((t.bumpDynamicCounters h).objectUpdateCounter =
      (if (t.objectWindowCounter.getD h 0 + 1) % 65536 ≥ t.opts.dynamicUpdateWindow then
        (t.objectUpdateCounter.setD h ((t.objectUpdateCounter.getD h 0 + 1) % 65536)).setD h 0
      else t.objectUpdateCounter.setD h ((t.objectUpdateCounter.getD h 0 + 1) % 65536))) ∧
    ((t.bumpDynamicCounters h).objectWindowCounter =
      (if (t.objectWindowCounter.getD h 0 + 1) % 65536 ≥ t.opts.dynamicUpdateWindow then
        (t.objectWindowCounter.setD h ((t.objectWindowCounter.getD h 0 + 1) % 65536)).setD h 0
      else t.objectWindowCounter.setD h ((t.objectWindowCounter.getD h 0 + 1) % 65536))) ∧
    ((t.bumpDynamicCounters h).objectFlags =
      (if (t.objectUpdateCounter.getD h 0 + 1) % 65536 ≥ t.opts.dynamicUpdateThreshold ∧
          t.objectFlags.getD h 0 &&& flagDynamic = 0 then
        t.objectFlags.setD h (t.objectFlags.getD h 0 ||| flagDynamic)
      else t.objectFlags)) := by
  simp only [Store.bumpDynamicCounters]
  by_cases hw : (t.objectWindowCounter.getD h 0 + 1) % 65536 ≥ t.opts.dynamicUpdateWindow <;>
    by_cases ht : (t.objectUpdateCounter.getD h 0 + 1) % 65536 ≥ t.opts.dynamicUpdateThreshold <;>
      by_cases hz : t.objectFlags.getD h 0 &&& flagDynamic = 0 <;>
        simp only [hw, ht, hz, if_pos, if_neg, if_true, if_false, and_true, and_false,
          true_and, false_and, not_false_eq_true, not_true_eq_false, ite_true, ite_false] <;>
          (try split) <;> exact ⟨rfl, rfl, rfl⟩


theorem bumpDynamicCounters_spec (t : Store) (h : Nat)
    (hupd : t.objectUpdateCounter.getD h 0 + 1 < 65536)
    (hwin : t.objectWindowCounter.getD h 0 + 1 < 65536)
    (hszU : h < t.objectUpdateCounter.size)
    (hszW : h < t.objectWindowCounter.size)
    (hszF : h < t.objectFlags.size) :
    (t.objectWindowCounter.getD h 0 + 1 ≥ t.opts.dynamicUpdateWindow →
      (t.bumpDynamicCounters h).objectUpdateCounter.getD h 0 = 0 ∧
      (t.bumpDynamicCounters h).objectWindowCounter.getD h 0 = 0) ∧
    (t.objectWindowCounter.getD h 0 + 1 < t.opts.dynamicUpdateWindow →
      (t.bumpDynamicCounters h).objectUpdateCounter.getD h 0 =
        t.objectUpdateCounter.getD h 0 + 1 ∧
      (t.bumpDynamicCounters h).objectWindowCounter.getD h 0 =
        t.objectWindowCounter.getD h 0 + 1) ∧
    (((t.bumpDynamicCounters h).objectFlags.getD h 0 &&& flagDynamic ≠ 0) ↔
      (t.objectUpdateCounter.getD h 0 + 1 ≥ t.opts.dynamicUpdateThreshold ∨
       t.objectFlags.getD h 0 &&& flagDynamic ≠ 0)) := by
  obtain ⟨hU, hW, hF⟩ := bump_fields t h
  rw [Nat.mod_eq_of_lt hupd] at hU hF
  rw [Nat.mod_eq_of_lt hwin] at hU hW
  refine ⟨fun hge => ?_, fun hlt => ?_, ?_⟩
  · rw [hU, if_pos hge, hW, if_pos hge]
    exact ⟨getD_setD_eq _ _ _ _ (by rw [Array.size_setD]; exact hszU),
           getD_setD_eq _ _ _ _ (by rw [Array.size_setD]; exact hszW)⟩
  · rw [hU, if_neg (by omega), hW, if_neg (by omega)]
    exact ⟨getD_setD_eq _ _ _ _ hszU, getD_setD_eq _ _ _ _ hszW⟩
  · rw [hF]
    by_cases ht : t.objectUpdateCounter.getD h 0 + 1 ≥ t.opts.dynamicUpdateThreshold
    · by_cases hz : t.objectFlags.getD h 0 &&& flagDynamic = 0
      · rw [if_pos ⟨ht, hz⟩, getD_setD_eq _ _ _ _ hszF]
        exact ⟨fun _ => Or.inl ht, fun _ => and_two_of_or_two _⟩
      · rw [if_neg (by tauto)]
        exact ⟨fun _ => Or.inl ht, fun _ => hz⟩
    · rw [if_neg (by tauto)]
      exact ⟨fun hne => Or.inr hne, fun hor => hor.resolve_left ht⟩


set_option maxHeartbeats 1000000 in
/-- C9: a successful in-place updateBoundingBox bumps the per-object rolling
counters; the Dynamic flag is set exactly when the bumped update counter
reaches the configured threshold (or was already set); and both counters
reset to zero when the bumped window counter completes a full window of
dynamicUpdateWindow updates. -/
theorem c9_dynamic_counters (s : Store) (objectId : Nat) (bbox : BBox) (rec : ObjectRecord)
    (hrec : mapGet s.objectIndex objectId = some rec)
    (hfit : s.fitsNode rec.nodeId bbox = true)
    (hupd : s.objectUpdateCounter.getD rec.handle 0 + 1 < 65536)
    (hwin : s.objectWindowCounter.getD rec.handle 0 + 1 < 65536)
    (hszU : rec.handle < s.objectUpdateCounter.size)
    (hszW : rec.handle < s.objectWindowCounter.size)
    (hszF : rec.handle < s.objectFlags.size) :
    ∃ res s', s.updateBoundingBox objectId bbox = some (res, s') ∧
      res.status = UpdateStatus.updated ∧
      (s.objectWindowCounter.getD rec.handle 0 + 1 ≥ s.opts.dynamicUpdateWindow →
        s'.objectUpdateCounter.getD rec.handle 0 = 0 ∧
        s'.objectWindowCounter.getD rec.handle 0 = 0) ∧
      (s.objectWindowCounter.getD rec.handle 0 + 1 < s.opts.dynamicUpdateWindow →
        s'.objectUpdateCounter.getD rec.handle 0 =
          s.objectUpdateCounter.getD rec.handle 0 + 1 ∧
        s'.objectWindowCounter.getD rec.handle 0 =
          s.objectWindowCounter.getD rec.handle 0 + 1) ∧
      ((s'.objectFlags.getD rec.handle 0 &&& flagDynamic ≠ 0) ↔
        (s.objectUpdateCounter.getD rec.handle 0 + 1 ≥ s.opts.dynamicUpdateThreshold ∨
         s.objectFlags.getD rec.handle 0 &&& flagDynamic ≠ 0)) := by
  have hfit2 : (s.writeBoundingBox rec.handle bbox).fitsNode rec.nodeId bbox = true := hfit
  simp only [Store.updateBoundingBox, hrec, hfit2, not_true_eq_false, if_false]
  have hspec := bumpDynamicCounters_spec
    { s.writeBoundingBox rec.handle bbox with
      objectIndex := mapSet (s.writeBoundingBox rec.handle bbox).objectIndex objectId
        { rec with flags := (s.writeBoundingBox rec.handle bbox).objectFlags.getD rec.handle 0 }
      objectFlags := (s.writeBoundingBox rec.handle bbox).objectFlags.setD rec.handle
        (((s.writeBoundingBox rec.handle bbox).objectFlags.getD rec.handle 0) |||
          flagDirty ||| flagTileCoverageDirty) }
    rec.handle hupd hwin hszU hszW (by rw [Array.size_setD]; exact hszF)
  have heq : (s.objectFlags.setD rec.handle
      ((s.objectFlags.getD rec.handle 0) ||| flagDirty ||| flagTileCoverageDirty)).getD
        rec.handle 0 &&& flagDynamic = s.objectFlags.getD rec.handle 0 &&& flagDynamic := by
    rw [getD_setD_eq _ _ _ _ hszF]
    exact and_two_of_or_four _
  refine ⟨_, _, rfl, rfl, hspec.1, hspec.2.1, ?_⟩
  refine hspec.2.2.trans ?_
  constructor
  · intro hor
    rcases hor with hor | hor
    · exact Or.inl hor
    · have hor2 : (s.objectFlags.setD rec.handle
          ((s.objectFlags.getD rec.handle 0) ||| flagDirty ||| flagTileCoverageDirty)).getD
            rec.handle 0 &&& flagDynamic ≠ 0 := hor
      rw [heq] at hor2
      exact Or.inr hor2
  · intro hor
    rcases hor with hor | hor
    · exact Or.inl hor
    · rw [← heq] at hor
      exact Or.inr hor


/-- Store with one object (handle 0 at the root) for the C9 witness. -/
def c9store : Store :=
  (((freshStore wopts).insert 1 boxA 0).map (fun p => p.2)).getD (freshStore wopts)

/-- The object record held for object 1 inside c9store. -/
def c9rec : ObjectRecord :=
  { id := 1, handle := 0, nodeId := 0, flags := 0, updateTicks := 0, windowTicks := 0 }

/-- C9 witness: the counter/flag specification applied to a concrete
in-place update. -/
theorem c9_dynamic_counters_witness :
    ∃ res s', c9store.updateBoundingBox 1 { x := 1, y := 1, w := 10, h := 10 } = some (res, s') ∧
      res.status = UpdateStatus.updated ∧
      (c9store.objectWindowCounter.getD c9rec.handle 0 + 1 ≥ c9store.opts.dynamicUpdateWindow →
        s'.objectUpdateCounter.getD c9rec.handle 0 = 0 ∧
        s'.objectWindowCounter.getD c9rec.handle 0 = 0) ∧
      (c9store.objectWindowCounter.getD c9rec.handle 0 + 1 < c9store.opts.dynamicUpdateWindow →
        s'.objectUpdateCounter.getD c9rec.handle 0 =
          c9store.objectUpdateCounter.getD c9rec.handle 0 + 1 ∧
        s'.objectWindowCounter.getD c9rec.handle 0 =
          c9store.objectWindowCounter.getD c9rec.handle 0 + 1) ∧
      ((s'.objectFlags.getD c9rec.handle 0 &&& flagDynamic ≠ 0) ↔
        (c9store.objectUpdateCounter.getD c9rec.handle 0 + 1 ≥
            c9store.opts.dynamicUpdateThreshold ∨
         c9store.objectFlags.getD c9rec.handle 0 &&& flagDynamic ≠ 0)) :=
  c9_dynamic_counters c9store 1 { x := 1, y := 1, w := 10, h := 10 } c9rec
    (by with_unfolding_all rfl) (by with_unfolding_all rfl)
    (by with_unfolding_all exact of_decide_eq_true rfl)
    (by with_unfolding_all exact of_decide_eq_true rfl)
    (by with_unfolding_all exact of_decide_eq_true rfl)
    (by with_unfolding_all exact of_decide_eq_true rfl)
    (by with_unfolding_all exact of_decide_eq_true rfl)

/-! ## C5: idempotent visible-chunk refresh -/

theorem chunk_update_not_dirty (c : Chunk) (v : Viewport) (g : Nat → Option DrawObj)
    (d : DrawObj → Bool) : ((c.update v g d).1).isDirty = false := by
  simp only [Chunk.update]
  repeat' split
  all_goals simp_all

theorem chunk_update_prevLod (c : Chunk) (v : Viewport) (g : Nat → Option DrawObj)
    (d : DrawObj → Bool) : ((c.update v g d).1).previousLod = some v.lodLevel := by
  simp only [Chunk.update]
  repeat' split
  all_goals rfl

theorem chunk_update_idempotent (c : Chunk) (v : Viewport) (g : Nat → Option DrawObj)
    (d : DrawObj → Bool)
    (hlive : v.lodLevel = LODLevel.Near → ((c.update v g d).1).liveChildren ≠ 0) :
    ((c.update v g d).1.update v g d).2.1 = false ∧
    ((c.update v g d).1.update v g d).2.2 = false := by
  have hdirty := chunk_update_not_dirty c v g d
  have hprev := chunk_update_prevLod c v g d
  set c1 := (c.update v g d).1 with hc1
  rw [Chunk.update, hprev]
  simp only [ne_eq, Option.some.injEq, eq_self_iff_true, not_true_eq_false, and_false,
    if_false]
  try dsimp only
  split
  · rename_i hnear
    have hl := hlive hnear
    rw [if_neg]
    · exact ⟨rfl, rfl⟩
    · intro hcond
      rcases Bool.or_eq_true_iff.mp hcond with h1 | h2
      · rw [hdirty] at h1
        exact Bool.false_ne_true h1
      · exact hl (by simpa using h2)
  · rw [if_neg]
    · exact ⟨rfl, rfl⟩
    · rw [hdirty]
      exact Bool.false_ne_true

/-- C5 (amended): calling updateVisibleChunks twice with the same viewport
and visible rectangle and no segment changes performs zero chunk rebuilds on
the second call, provided every visible chunk after the first call either
sits in a coarser-than-near LOD band or has a nonempty live container; a
visible Near-band chunk whose live container is empty is rebuilt every
call. -/
theorem c5_update_visible_idempotent (m : ChunkManager) (v : Viewport) (vis : BBox)
    (d : DrawObj → Bool)
    (hlive : ∀ k c, (k, c) ∈ (m.updateVisibleChunks v vis d).1.chunks →
        rectIntersects vis c.worldRect = true → v.lodLevel = LODLevel.Near →
        c.liveChildren ≠ 0) :
    ((m.updateVisibleChunks v vis d).1.updateVisibleChunks v vis d).2 = 0 := by
  have hobj : (m.updateVisibleChunks v vis d).1.objects = m.objects := by
    rw [ChunkManager.updateVisibleChunks]
  have hchunks : (m.updateVisibleChunks v vis d).1.chunks =
      (m.chunks.map (fun p =>
        if rectIntersects vis p.2.worldRect then
          match p.2.update v (fun id => mapGet m.objects id) d with
          | (c, rebuiltLive, rebuiltTexture) =>
            ((p.1, c), (if rebuiltLive then 1 else 0) + (if rebuiltTexture then 1 else 0))
        else ((p.1, p.2), 0))).map (fun q => q.1) := by
    rw [ChunkManager.updateVisibleChunks]
  conv_lhs => rw [ChunkManager.updateVisibleChunks]
  simp only [hobj]
  apply List.sum_eq_zero
  intro x hx
  rcases List.mem_map.mp hx with ⟨y, hy, rfl⟩
  rcases List.mem_map.mp hy with ⟨q, hq, rfl⟩
  by_cases hv : rectIntersects vis q.2.worldRect = true
  · have hqorig := hq
    rw [hchunks] at hq
    rcases List.mem_map.mp hq with ⟨q1, hq1, hfst⟩
    rcases List.mem_map.mp hq1 with ⟨p0, hp0, rfl⟩
    by_cases hv0 : rectIntersects vis p0.2.worldRect = true
    · simp only [if_pos hv0] at hfst
      rcases hu0 : p0.2.update v (fun id => mapGet m.objects id) d with ⟨c1, bl0, bt0⟩
      rw [hu0] at hfst
      simp only at hfst
      have hq2 : q.2 = c1 := by rw [← hfst]
      have hl2 : v.lodLevel = LODLevel.Near → c1.liveChildren ≠ 0 := by
        intro hnear
        have hval := hlive q.1 q.2 (by simpa using hqorig) hv hnear
        rw [hq2] at hval
        exact hval
      have hid := chunk_update_idempotent p0.2 v (fun id => mapGet m.objects id) d
        (by rw [hu0]; exact hl2)
      rw [hu0] at hid
      simp only at hid
      rw [if_pos hv]
      rcases hu : q.2.update v (fun id => mapGet m.objects id) d with ⟨c2, bl, bt⟩
      rw [← hq2] at hid
      rw [hu] at hid
      simp only at hid
      show (if bl = true then 1 else 0) + (if bt = true then 1 else 0) = 0
      rw [hid.1, hid.2]
      rfl
    · simp only [if_neg hv0] at hfst
      have hq2 : q.2 = p0.2 := by rw [← hfst]
      rw [hq2] at hv
      exact absurd hv hv0
  · rw [if_neg hv]


/-- Object 1 after a large move, leaving its old chunk empty. -/
def objAmoved : DrawObj :=
  { id := 1, bbox := some { x := 5000, y := 5000, w := 10, h := 10 }, zIndex := none }

/-- A cache whose chunk (0,0) exists but holds no segments. -/
def cm5 : ChunkManager := (ChunkManager.create.addObjects [objA]).addObjects [objAmoved]

def vNear : Viewport := { scale := 1, lodLevel := LODLevel.Near }

def vMid : Viewport := { scale := 1, lodLevel := LODLevel.Mid }

def vis5 : BBox := { x := 0, y := 0, w := 100, h := 100 }

/-- C5 counterexample: a visible chunk at the nearest LOD band whose live
container is empty is rebuilt by rebuildLive on every updateVisibleChunks
call — the second identical call still performs one rebuild. -/
theorem c5_counterexample :
    ¬ (((cm5.updateVisibleChunks vNear vis5 (fun _ => true)).1).updateVisibleChunks vNear vis5
      (fun _ => true)).2 = 0 := by
  intro h
  have h1 : (((cm5.updateVisibleChunks vNear vis5 (fun _ => true)).1).updateVisibleChunks
      vNear vis5 (fun _ => true)).2 = 1 := by
    with_unfolding_all rfl
  rw [h1] at h
  exact one_ne_zero h

/-- C5 witness: the amended idempotence applied at a concrete cache and a
coarser-than-near viewport, where the live-container condition is vacuous. -/
theorem c5_update_visible_idempotent_witness :
    (((ChunkManager.create.addObjects [objA]).updateVisibleChunks vMid vis5
      (fun _ => true)).1.updateVisibleChunks vMid vis5 (fun _ => true)).2 = 0 :=
  c5_update_visible_idempotent (ChunkManager.create.addObjects [objA]) vMid vis5
    (fun _ => true) (fun _ _ _ _ hl => absurd hl (by decide))


/-! ## C4: segment clip rectangles cover box ∩ chunks exactly -/

/-- Membership in a half-open rectangle [x, x+w) × [y, y+h): the point set a
PIXI Rectangle of positive extent covers. -/
def memRect (p : ℚ × ℚ) (r : BBox) : Prop :=
  r.x ≤ p.1 ∧ p.1 < r.x + r.w ∧ r.y ≤ p.2 ∧ p.2 < r.y + r.h

/-- A segment's clip rectangle mapped back into world space by translating
with the object box origin. -/
def worldClip (seg : ChunkSegment) (b : BBox) : BBox :=
  { x := seg.clipRect.x + b.x, y := seg.clipRect.y + b.y
    w := seg.clipRect.w, h := seg.clipRect.h }

/-- The world rectangle of the chunk with the given grid coordinates. -/
def chunkRect (k : Int × Int) : BBox :=
  { x := (k.1 : ℚ) * CHUNK_SIZE, y := (k.2 : ℚ) * CHUNK_SIZE
    w := CHUNK_SIZE, h := CHUNK_SIZE }

/-- The segment computeSegmentsForObject builds for box b at chunk key k
(the some-branch of its builder). -/
def segmentFor (obj : DrawObj) (b : BBox) (k : Int × Int) : ChunkSegment where
  objectId := obj.id
  chunkKey := k
  localX := max b.x ((k.1 : ℚ) * CHUNK_SIZE) - (k.1 : ℚ) * CHUNK_SIZE
  localY := max b.y ((k.2 : ℚ) * CHUNK_SIZE) - (k.2 : ℚ) * CHUNK_SIZE
  clipRect :=
    { x := max b.x ((k.1 : ℚ) * CHUNK_SIZE) - b.x
      y := max b.y ((k.2 : ℚ) * CHUNK_SIZE) - b.y
      w := min (b.x + b.w) ((k.1 : ℚ) * CHUNK_SIZE + CHUNK_SIZE) - max b.x ((k.1 : ℚ) * CHUNK_SIZE)
      h := min (b.y + b.h) ((k.2 : ℚ) * CHUNK_SIZE + CHUNK_SIZE) - max b.y ((k.2 : ℚ) * CHUNK_SIZE) }
  zIndex := obj.zIndex.getD 0
  lod := LODLevel.Near

/-- C4: for an object with a bounding box, a point lies in some segment's
clip rectangle mapped back to world space iff it lies in the bounding box
and in some overlapped chunk's rectangle — the segments cover the box
intersected with the union of its overlapped chunks exactly, with no gaps
and nothing outside the box. -/
theorem c4_segment_cover (obj : DrawObj) (b : BBox) (hb : obj.bbox = some b)
    (p : ℚ × ℚ) :
    (∃ seg ∈ computeSegmentsForObject obj, memRect p (worldClip seg b)) ↔
    (memRect p b ∧ ∃ k ∈ getChunksForBbox b, memRect p (chunkRect k)) := by
  simp only [computeSegmentsForObject, hb, List.mem_filterMap]
  constructor
  · rintro ⟨seg, ⟨k, hk, hf⟩, hmem⟩
    split at hf
    · exact absurd hf (by simp)
    · rename_i hne
      rw [Option.some.injEq] at hf
      subst hf
      rcases hmem with ⟨h1, h2, h3, h4⟩
      simp only [worldClip] at h1 h2 h3 h4
      have hx1 : max b.x ((k.1 : ℚ) * CHUNK_SIZE) ≤ p.1 := by linarith
      have hx2 : p.1 < min (b.x + b.w) ((k.1 : ℚ) * CHUNK_SIZE + CHUNK_SIZE) := by linarith
      have hy1 : max b.y ((k.2 : ℚ) * CHUNK_SIZE) ≤ p.2 := by linarith
      have hy2 : p.2 < min (b.y + b.h) ((k.2 : ℚ) * CHUNK_SIZE + CHUNK_SIZE) := by linarith
      rcases max_le_iff.mp hx1 with ⟨hbx, hcx⟩
      rcases lt_min_iff.mp hx2 with ⟨hbx2, hcx2⟩
      rcases max_le_iff.mp hy1 with ⟨hby, hcy⟩
      rcases lt_min_iff.mp hy2 with ⟨hby2, hcy2⟩
      exact ⟨⟨hbx, hbx2, hby, hby2⟩, k, hk, hcx, hcx2, hcy, hcy2⟩
  · rintro ⟨⟨hbx, hbx2, hby, hby2⟩, k, hk, hcx, hcx2, hcy, hcy2⟩
    simp only [chunkRect] at hcx hcx2 hcy hcy2
    refine ⟨segmentFor obj b k, ⟨k, hk, ?_⟩, ?_⟩
    · rw [if_neg]
      · rfl
      · push_neg
        constructor
        · exact lt_of_le_of_lt (max_le hbx hcx) (lt_min hbx2 hcx2)
        · exact lt_of_le_of_lt (max_le hby hcy) (lt_min hby2 hcy2)
    · refine ⟨?_, ?_, ?_, ?_⟩ <;> simp only [worldClip, segmentFor]
      · have := max_le hbx hcx
        linarith
      · have := lt_min hbx2 hcx2
        have hle : max b.x ((k.1 : ℚ) * CHUNK_SIZE) ≤ p.1 := max_le hbx hcx
        linarith
      · have := max_le hby hcy
        linarith
      · have := lt_min hby2 hcy2
        have hle : max b.y ((k.2 : ℚ) * CHUNK_SIZE) ≤ p.2 := max_le hby hcy
        linarith

/-- C4 witness: the covering equivalence at a concrete box and point. -/
theorem c4_segment_cover_witness :
    (∃ seg ∈ computeSegmentsForObject objB, memRect (1005, 1005) (worldClip seg boxB)) ↔
    (memRect (1005, 1005) boxB ∧
      ∃ k ∈ getChunksForBbox boxB, memRect (1005, 1005) (chunkRect k)) :=
  c4_segment_cover objB boxB rfl (1005, 1005)


/-! ## Map and growth lemmas for the round-trip proofs -/

theorem mapSet_pred_eq (k : Nat) (v : α) :
    ((fun (q : Nat × α) => q.1 == k) ∘ fun p => if p.1 == k then (k, v) else p) =
      fun (p : Nat × α) => p.1 == k := by
  funext p
  by_cases h : p.1 == k
  · have h2 : p.1 = k := by simpa using h
    simp [h, h2]
  · have h2 : p.1 ≠ k := by simpa using h
    simp [h, h2]

theorem mapSet_pred_ne (k j : Nat) (v : α) (hkj : k ≠ j) :
    ((fun (q : Nat × α) => q.1 == j) ∘ fun p => if p.1 == k then (k, v) else p) =
      fun (p : Nat × α) => p.1 == j := by
  funext p
  by_cases h : p.1 == k
  · have h2 : p.1 = k := by simpa using h
    simp [h, h2, hkj]
  · have h2 : p.1 ≠ k := by simpa using h
    simp [h, h2]

theorem mapGet_mapSet_eq (m : List (Nat × α)) (k : Nat) (v : α) :
    mapGet (mapSet m k v) k = some v := by
  unfold mapGet mapSet
  by_cases hmem : m.any (fun p => p.1 == k)
  · rw [if_pos hmem, List.find?_map, mapSet_pred_eq]
    rcases hq : m.find? (fun p => p.1 == k) with _ | q
    · rw [List.any_eq_true] at hmem
      rw [List.find?_eq_none] at hq
      rcases hmem with ⟨x, hx, hpx⟩
      exact absurd hpx (hq x hx)
    · have hqk : q.1 = k := by
        have := List.find?_some hq
        simpa using this
      rw [hq]
      simp only [Option.map_map, Option.map_some']
      simp [hqk]
  · rw [if_neg hmem, List.find?_append]
    have hnone : m.find? (fun p => p.1 == k) = none := by
      rw [List.find?_eq_none]
      intro x hx hpx
      exact hmem (List.any_eq_true.mpr ⟨x, hx, hpx⟩)
    simp [hnone, List.find?]

theorem mapGet_mapSet_ne (m : List (Nat × α)) (k j : Nat) (v : α) (h : k ≠ j) :
    mapGet (mapSet m k v) j = mapGet m j := by
  unfold mapGet mapSet
  by_cases hmem : m.any (fun p => p.1 == k)
  · rw [if_pos hmem, List.find?_map, mapSet_pred_ne k j v h]
    rcases hq : m.find? (fun p => p.1 == j) with _ | q
    · simp [hq]
    · have hqj2 : q.1 = j := by
        have := List.find?_some hq
        simpa using this
      have hqk : q.1 ≠ k := by omega
      simp [hq, Option.map_map, hqj2, hqk, Ne.symm h]
  · rw [if_neg hmem, List.find?_append]
    have hkj : ((k, v).1 == j) = false := by simpa using h
    simp [List.find?, hkj]

theorem mapGet_mapDel_eq (m : List (Nat × α)) (k : Nat) :
    mapGet (mapDel m k) k = none := by
  unfold mapGet mapDel
  have : (m.filter fun p => p.1 != k).find? (fun p => p.1 == k) = none := by
    rw [List.find?_eq_none]
    intro x hx
    have := (List.mem_filter.mp hx).2
    simpa using this
  simp [this]

theorem mapGet_mapDel_ne (m : List (Nat × α)) (k j : Nat) (h : k ≠ j) :
    mapGet (mapDel m k) j = mapGet m j := by
  unfold mapGet mapDel
  induction m with
  | nil => rfl
  | cons p rest ih =>
    by_cases hpj : (p.1 == j) = true
    · have hpj2 : p.1 = j := by simpa using hpj
      have hpk : (p.1 != k) = true := by simp [hpj2]; omega
      simp [List.filter_cons, hpk, List.find?, hpj]
    · by_cases hpk : (p.1 != k) = true
      · simpa [List.filter_cons, hpk, List.find?, hpj] using ih
      · simpa [List.filter_cons, hpk, List.find?, hpj] using ih


theorem getD_append (a b : Array α) (j : Nat) (d : α) :
    (a ++ b).getD j d = if j < a.size then a.getD j d
      else if j < a.size + b.size then b.getD (j - a.size) d else d := by
  by_cases hj : j < a.size
  · unfold Array.getD
    rw [if_pos hj, dif_pos hj,
      dif_pos (by rw [Array.size_append]; omega)]
    exact Array.getElem_append_left hj
  · rw [if_neg hj]
    by_cases hj2 : j < a.size + b.size
    · unfold Array.getD
      rw [if_pos hj2, dif_pos (by rw [Array.size_append]; omega),
        dif_pos (by omega)]
      exact Array.getElem_append_right (by omega)
    · unfold Array.getD
      rw [if_neg hj2, dif_neg (by rw [Array.size_append]; omega)]

theorem getD_growSet_self (a : Array α) (i : Nat) (v d : α) :
    (growSet a i v d).getD i d = v := by
  unfold growSet
  split
  · exact getD_setD_eq _ _ _ _ (by assumption)
  · exact getD_setD_eq _ _ _ _ (by rw [Array.size_append, Array.size_mkArray]; omega)

theorem getD_growSet_other (a : Array α) (i j : Nat) (v d : α) (h : i ≠ j) :
    (growSet a i v d).getD j d = a.getD j d ∨ (growSet a i v d).getD j d = d := by
  unfold growSet
  split
  · exact Or.inl (getD_setD_ne _ _ _ _ _ h)
  · rw [getD_setD_ne _ _ _ _ _ h, getD_append]
    by_cases hj : j < a.size
    · rw [if_pos hj]
      exact Or.inl rfl
    · rw [if_neg hj]
      by_cases hj2 : j < a.size + (Array.mkArray (i + 1 - a.size) d).size
      · rw [if_pos hj2]
        right
        unfold Array.getD
        rw [dif_pos (by rw [Array.size_mkArray] at hj2 ⊢; omega)]
        exact Array.getElem_mkArray _ _ _
      · rw [if_neg hj2]
        exact Or.inr rfl

theorem getD_growTo (a : Array α) (cap j : Nat) (d : α) :
    (growTo a cap d).getD j d = a.getD j d ∨ (growTo a cap d).getD j d = d := by
  unfold growTo
  split
  · exact Or.inl rfl
  · rw [getD_append]
    by_cases hj : j < a.size
    · rw [if_pos hj]
      exact Or.inl rfl
    · rw [if_neg hj]
      by_cases hj2 : j < a.size + (Array.mkArray (cap - a.size) d).size
      · rw [if_pos hj2]
        right
        unfold Array.getD
        rw [dif_pos (by rw [Array.size_mkArray] at hj2 ⊢; omega)]
        exact Array.getElem_mkArray _ _ _
      · rw [if_neg hj2]
        exact Or.inr rfl


/-- The store components none of the quadtree-manipulation helpers touch:
the object contents map, the external getter, the handle-to-id table, the
object index and the bounding-box arena. -/
def coreFrame (s : Store) :
    List (Nat × DrawObj) × Option (Nat → Option DrawObj) × Array (Option Nat) ×
      List (Nat × ObjectRecord) × Array BBox :=
  (s.objectStore, s.externalGetter, s.handleToId, s.objectIndex, s.objectBounds)

theorem coreFrame_ensureRootBounds (s : Store) (b : BBox) :
    coreFrame (s.ensureRootBounds b) = coreFrame s := by
  unfold Store.ensureRootBounds
  dsimp only
  repeat' split
  all_goals rfl

theorem coreFrame_detachRef (s : Store) (n r pr : Int) (h : Option Nat) :
    coreFrame (s.detachRef n r pr h) = coreFrame s := by
  unfold Store.detachRef
  dsimp only
  repeat' split
  all_goals rfl

theorem coreFrame_purgeLoop (handle : Nat) (n : Int) (fuel : Nat) :
    ∀ (s : Store) (cur prev : Int),
      coreFrame (s.purgeLoop handle n cur prev fuel).2 = coreFrame s := by
  induction fuel with
  | zero => intro s cur prev; rfl
  | succ fuel ih =>
    intro s cur prev
    unfold Store.purgeLoop
    dsimp only
    split
    · rfl
    · split
      · exact coreFrame_detachRef _ _ _ _ _
      · exact ih _ _ _

theorem coreFrame_purgeHandleFromNode (s : Store) (handle : Nat) (n : Int) :
    coreFrame (s.purgeHandleFromNode handle n).2 = coreFrame s := by
  unfold Store.purgeHandleFromNode
  split
  · rfl
  · exact coreFrame_purgeLoop _ _ _ _ _ _

theorem coreFrame_expandObjectRefs (s : Store) :
    coreFrame s.expandObjectRefs = coreFrame s := rfl

theorem coreFrame_obtainObjectRefIndex (s : Store) :
    coreFrame (s.obtainObjectRefIndex).2 = coreFrame s := by
  unfold Store.obtainObjectRefIndex
  dsimp only
  split
  · rfl
  · split <;> rfl

theorem coreFrame_attachToNode (s : Store) (handle : Nat) (n : Int) :
    coreFrame (s.attachToNode handle n) = coreFrame s := by
  unfold Store.attachToNode
  dsimp only
  rcases ho : s.obtainObjectRefIndex with ⟨r, s1⟩
  have h1 : coreFrame s1 = coreFrame s := by
    have h2 := coreFrame_obtainObjectRefIndex s
    rw [ho] at h2
    exact h2
  exact h1

theorem coreFrame_mergeWalk (parentId : Int) (fuel : Nat) :
    ∀ (s : Store) (ref : Int), coreFrame (s.mergeWalk parentId ref fuel) = coreFrame s := by
  induction fuel with
  | zero => intro s ref; rfl
  | succ fuel ih =>
    intro s ref
    unfold Store.mergeWalk
    dsimp only
    split
    · rfl
    · rw [ih]
      exact coreFrame_attachToNode _ _ _

theorem coreFrame_foldl (f : Store → α → Store) (l : List α)
    (hf : ∀ s x, coreFrame (f s x) = coreFrame s) :
    ∀ s : Store, coreFrame (l.foldl f s) = coreFrame s := by
  induction l with
  | nil => intro s; rfl
  | cons x rest ih =>
    intro s
    rw [List.foldl_cons, ih, hf]

theorem coreFrame_tryMerge (s : Store) (n : Int) :
    coreFrame (s.tryMerge n) = coreFrame s := by
  unfold Store.tryMerge
  dsimp only
  split
  · rfl
  · split
    · rfl
    · exact coreFrame_foldl _ _ (fun t x => by
        try dsimp only
        split
        · rfl
        · exact coreFrame_mergeWalk _ _ _ _) s

theorem coreFrame_detachFromNode (s : Store) (handle : Nat) (n : Int) :
    coreFrame (s.detachFromNode handle n) = coreFrame s := by
  unfold Store.detachFromNode
  dsimp only
  split
  · rfl
  · rcases hp : s.purgeHandleFromNode handle n with ⟨removed, s1⟩
    have h1 : coreFrame s1 = coreFrame s := by
      have h2 := coreFrame_purgeHandleFromNode s handle n
      rw [hp] at h2
      exact h2
    cases removed
    · exact h1
    · exact (coreFrame_tryMerge s1 n).trans h1

theorem coreFrame_redistribute (s : Store) (n : Int) (depth : Nat) :
    coreFrame (s.redistribute n depth) = coreFrame s := by
  unfold Store.redistribute
  dsimp only
  refine coreFrame_foldl _ _ ?_ s
  intro t h
  dsimp only
  split
  · split
    · exact (coreFrame_attachToNode _ _ _).trans (coreFrame_detachFromNode _ _ _)
    · rfl
  · rfl

theorem foldlOption_none (f : Option Store → α → Option Store)
    (hnone : ∀ x, f none x = none) :
    ∀ l : List α, l.foldl f none = none := by
  intro l
  induction l with
  | nil => rfl
  | cons x rest ih => rw [List.foldl_cons, hnone]; exact ih

theorem coreFrame_foldlOption (f : Option Store → α → Option Store)
    (hnone : ∀ x, f none x = none)
    (hf : ∀ t x t2, f (some t) x = some t2 → coreFrame t2 = coreFrame t) :
    ∀ (l : List α) (s s2 : Store), l.foldl f (some s) = some s2 →
      coreFrame s2 = coreFrame s := by
  intro l
  induction l with
  | nil =>
    intro s s2 h
    rw [List.foldl_nil] at h
    cases h
    rfl
  | cons x rest ih =>
    intro s s2 h
    rw [List.foldl_cons] at h
    rcases hfx : f (some s) x with _ | s1
    · rw [hfx, foldlOption_none f hnone] at h
      exact Option.noConfusion h
    · rw [hfx] at h
      exact (ih s1 s2 h).trans (hf s x s1 hfx)

theorem coreFrame_splitNode (s : Store) (n : Int) (depth : Nat) (s2 : Store)
    (h : s.splitNode n depth = some s2) : coreFrame s2 = coreFrame s := by
  unfold Store.splitNode at h
  dsimp only at h
  split at h
  · exact Option.noConfusion h
  · rename_i sm heq
    cases h
    rw [coreFrame_redistribute]
    refine (coreFrame_foldlOption _ ?_ ?_ _ _ _ heq).trans rfl
    · intro x; rfl
    · intro t x t2 hF
      dsimp only at hF
      split at hF
      · exact Option.noConfusion hF
      · cases hF; rfl

theorem coreFrame_insertLoop (handle : Nat) (bbox : BBox) :
    ∀ (fuel : Nat) (s : Store) (nodeId : Int) (depth : Nat) (r : Int × Store),
      s.insertLoop handle bbox nodeId depth fuel = some r →
      coreFrame r.2 = coreFrame s := by
  intro fuel
  induction fuel with
  | zero =>
    intro s nodeId depth r h
    cases h
    exact coreFrame_attachToNode _ _ _
  | succ fuel ih =>
    intro s nodeId depth r h
    unfold Store.insertLoop at h
    dsimp only at h
    by_cases hleaf : s.pool.isLeaf nodeId = true
    · rw [if_pos hleaf] at h
      by_cases hroom : s.pool.getObjectCount nodeId < s.opts.maxObjectsPerNode ∨
          depth ≥ s.opts.maxDepth
      · rw [if_pos hroom] at h
        cases h
        exact coreFrame_attachToNode _ _ _
      · rw [if_neg hroom] at h
        rcases hsplit : s.splitNode nodeId depth with _ | sm
        · rw [hsplit] at h
          exact Option.noConfusion h
        · rw [hsplit] at h
          dsimp only at h
          have hframe : coreFrame sm = coreFrame s := coreFrame_splitNode _ _ _ _ hsplit
          by_cases h1 : sm.selectChild nodeId bbox depth = -1
          · rw [if_pos h1] at h
            cases h
            exact (coreFrame_attachToNode _ _ _).trans hframe
          · rw [if_neg h1] at h
            by_cases h2 : sm.pool.getChild nodeId (sm.selectChild nodeId bbox depth).toNat = -1
            · rw [if_pos h2] at h
              cases h
              exact (coreFrame_attachToNode _ _ _).trans hframe
            · rw [if_neg h2] at h
              by_cases h3 : depth + 1 > sm.opts.maxDepth + 5
              · rw [if_pos h3] at h
                cases h
                exact (coreFrame_attachToNode _ _ _).trans hframe
              · rw [if_neg h3] at h
                exact (ih _ _ _ _ h).trans hframe
    · rw [if_neg hleaf] at h
      dsimp only at h
      by_cases h1 : s.selectChild nodeId bbox depth = -1
      · rw [if_pos h1] at h
        cases h
        exact coreFrame_attachToNode _ _ _
      · rw [if_neg h1] at h
        by_cases h2 : s.pool.getChild nodeId (s.selectChild nodeId bbox depth).toNat = -1
        · rw [if_pos h2] at h
          cases h
          exact coreFrame_attachToNode _ _ _
        · rw [if_neg h2] at h
          by_cases h3 : depth + 1 > s.opts.maxDepth + 5
          · rw [if_pos h3] at h
            cases h
            exact coreFrame_attachToNode _ _ _
          · rw [if_neg h3] at h
            exact ih _ _ _ _ h

theorem coreFrame_insertHandle (s : Store) (handle : Nat) (bbox : BBox)
    (r : Int × Store) (h : s.insertHandle handle bbox = some r) :
    coreFrame r.2 = coreFrame s := by
  unfold Store.insertHandle at h
  dsimp only at h
  exact (coreFrame_insertLoop _ _ _ _ _ _ _ h).trans (coreFrame_ensureRootBounds s bbox)


/-- A growSet write on top of an array whose slots agree with `a` (or are
null padding): the written slot holds the new value, every other slot still
agrees with `a` or is padding. -/
theorem slots_growSet (a b : Array (Option Nat))
    (hsub : ∀ j, b.getD j none = a.getD j none ∨ b.getD j none = none)
    (h id : Nat) :
    (growSet b h (some id) none).getD h none = some id ∧
    ∀ j, j ≠ h → ((growSet b h (some id) none).getD j none = a.getD j none ∨
      (growSet b h (some id) none).getD j none = none) := by
  refine ⟨getD_growSet_self _ _ _ _, ?_⟩
  intro j hj
  rcases getD_growSet_other b h j (some id) none (fun he => hj he.symm) with hc | hc
  · rw [hc]
    exact hsub j
  · exact Or.inr hc

/-- obtainHandle on an id absent from the index: the content map, the getter
and the index are untouched; the returned handle's table slot now holds the
id and every other slot keeps its old value or the null padding. -/
theorem obtainHandle_spec (s : Store) (id : Nat)
    (hni : mapGet s.objectIndex id = none) :
    (s.obtainHandle id).2.objectStore = s.objectStore ∧
    (s.obtainHandle id).2.externalGetter = s.externalGetter ∧
    (s.obtainHandle id).2.objectIndex = s.objectIndex ∧
    (s.obtainHandle id).2.handleToId.getD (s.obtainHandle id).1 none = some id ∧
    ∀ j, j ≠ (s.obtainHandle id).1 →
      ((s.obtainHandle id).2.handleToId.getD j none = s.handleToId.getD j none ∨
       (s.obtainHandle id).2.handleToId.getD j none = none) := by
  unfold Store.obtainHandle
  rw [hni]
  dsimp only
  rcases hfl : s.handleFreeList with _ | ⟨h0, rest⟩
  · dsimp only
    by_cases hcap : s.usedHandles ≥ s.objectCapacity
    · rw [if_pos hcap]
      unfold Store.expandHandles
      dsimp only
      by_cases hsz : s.objectCapacity = s.handleToId.size
      · rw [if_pos hsz]
        unfold Store.resizeHandles
        dsimp only
        exact ⟨rfl, rfl, rfl,
          (slots_growSet s.handleToId _ (fun j => getD_growTo _ _ _ _) _ id).1,
          (slots_growSet s.handleToId _ (fun j => getD_growTo _ _ _ _) _ id).2⟩
      · rw [if_neg hsz]
        exact ⟨rfl, rfl, rfl,
          (slots_growSet s.handleToId s.handleToId (fun j => Or.inl rfl) _ id).1,
          (slots_growSet s.handleToId s.handleToId (fun j => Or.inl rfl) _ id).2⟩
    · rw [if_neg hcap]
      exact ⟨rfl, rfl, rfl,
        (slots_growSet s.handleToId s.handleToId (fun j => Or.inl rfl) _ id).1,
        (slots_growSet s.handleToId s.handleToId (fun j => Or.inl rfl) _ id).2⟩
  · dsimp only
    exact ⟨rfl, rfl, rfl,
      (slots_growSet s.handleToId s.handleToId (fun j => Or.inl rfl) _ id).1,
      (slots_growSet s.handleToId s.handleToId (fun j => Or.inl rfl) _ id).2⟩

/-- The components of the store a query or a lookup resolves through. -/
def idFrame (s : Store) : List (Nat × DrawObj) × Option (Nat → Option DrawObj) ×
    Array (Option Nat) × List (Nat × ObjectRecord) :=
  (s.objectStore, s.externalGetter, s.handleToId, s.objectIndex)

theorem idFrame_of_coreFrame {s t : Store} (h : coreFrame s = coreFrame t) :
    idFrame s = idFrame t := by
  unfold coreFrame at h
  unfold idFrame
  injection h with h1 h2
  injection h2 with h2 h3
  injection h3 with h3 h4
  injection h4 with h4 h5
  rw [h1, h2, h3, h4]

/-- A successful insert of an id absent from the index: the content map and
the getter are untouched, the index gains exactly the new record, the new
handle's table slot holds the id and every other slot keeps its old value or
null padding. -/
theorem insert_spec (s : Store) (id : Nat) (bbox : BBox) (flags : Nat)
    (r : InsertionResult) (s1 : Store)
    (hins : s.insert id bbox flags = some (r, s1))
    (hni : mapGet s.objectIndex id = none) :
    s1.objectStore = s.objectStore ∧
    s1.externalGetter = s.externalGetter ∧
    (∃ rec : ObjectRecord, rec.handle = (s.obtainHandle id).1 ∧
      s1.objectIndex = mapSet s.objectIndex id rec) ∧
    s1.handleToId.getD (s.obtainHandle id).1 none = some id ∧
    ∀ j, j ≠ (s.obtainHandle id).1 →
      (s1.handleToId.getD j none = s.handleToId.getD j none ∨
       s1.handleToId.getD j none = none) := by
  obtain ⟨hos, hex, hoi, hself, hother⟩ := obtainHandle_spec s id hni
  unfold Store.insert at hins
  dsimp only at hins
  split at hins
  · exact Option.noConfusion hins
  · rename_i nodeId sE heq
    injection hins with hp
    injection hp with hr hs1
    subst hs1
    have hcf := coreFrame_insertHandle _ _ _ _ heq
    have hstep : idFrame sE = idFrame (s.obtainHandle id).2 := by
      refine (idFrame_of_coreFrame hcf).trans ?_
      split
      · exact (idFrame_of_coreFrame (coreFrame_purgeHandleFromNode _ _ _)).trans
          ((idFrame_of_coreFrame (coreFrame_ensureRootBounds _ _)).trans rfl)
      · exact (idFrame_of_coreFrame (coreFrame_ensureRootBounds _ _)).trans rfl
    have h1 : sE.objectStore = (s.obtainHandle id).2.objectStore :=
      congrArg (fun p => p.1) hstep
    have h2 : sE.externalGetter = (s.obtainHandle id).2.externalGetter :=
      congrArg (fun p => p.2.1) hstep
    have h3 : sE.handleToId = (s.obtainHandle id).2.handleToId :=
      congrArg (fun p => p.2.2.1) hstep
    have h4 : sE.objectIndex = (s.obtainHandle id).2.objectIndex :=
      congrArg (fun p => p.2.2.2) hstep
    refine ⟨h1.trans hos, h2.trans hex,
      ⟨{ id := id, handle := (s.obtainHandle id).1, nodeId := nodeId, flags := flags,
         updateTicks := 0, windowTicks := 0 }, rfl, ?_⟩, ?_, ?_⟩
    · show mapSet sE.objectIndex id _ = mapSet s.objectIndex id _
      rw [h4, hoi]
    · show sE.handleToId.getD (s.obtainHandle id).1 none = some id
      rw [h3]
      exact hself
    · intro j hj
      show sE.handleToId.getD j none = s.handleToId.getD j none ∨
        sE.handleToId.getD j none = none
      rw [h3]
      exact hother j hj

/-- remove on an id present in the index: the content map and the getter are
untouched and the handle-to-id table is the old one with the record's slot
cleared. -/
theorem remove_spec (s : Store) (id : Nat) (rec : ObjectRecord)
    (hrec : mapGet s.objectIndex id = some rec) :
    (s.remove id).objectStore = s.objectStore ∧
    (s.remove id).externalGetter = s.externalGetter ∧
    (s.remove id).handleToId = growSet s.handleToId rec.handle none none ∧
    (s.remove id).objectIndex = mapDel s.objectIndex id ∧
    (s.remove id).objectBounds = s.objectBounds := by
  unfold Store.remove
  rw [hrec]
  dsimp only
  have hd := coreFrame_detachFromNode s rec.handle rec.nodeId
  have h1 : (s.detachFromNode rec.handle rec.nodeId).objectStore = s.objectStore :=
    congrArg (fun p => p.1) hd
  have h2 : (s.detachFromNode rec.handle rec.nodeId).externalGetter = s.externalGetter :=
    congrArg (fun p => p.2.1) hd
  have h3 : (s.detachFromNode rec.handle rec.nodeId).handleToId = s.handleToId :=
    congrArg (fun p => p.2.2.1) hd
  have h4 : (s.detachFromNode rec.handle rec.nodeId).objectIndex = s.objectIndex :=
    congrArg (fun p => p.2.2.2.1) hd
  have h5 : (s.detachFromNode rec.handle rec.nodeId).objectBounds = s.objectBounds :=
    congrArg (fun p => p.2.2.2.2) hd
  refine ⟨h1, h2, ?_, ?_, h5⟩
  · show growSet (s.detachFromNode rec.handle rec.nodeId).handleToId rec.handle none none =
      growSet s.handleToId rec.handle none none
    rw [h3]
  · show mapDel (s.detachFromNode rec.handle rec.nodeId).objectIndex id =
      mapDel s.objectIndex id
    rw [h4]

/-- C2: for an id that is new to the store, insert(id, bbox) followed by
remove(id) leaves get(id) absent, and no handle a subsequent findInBounds
query returns resolves to id through the handle-to-id table. -/
theorem c2_insert_remove_roundtrip (s : Store) (id : Nat) (bbox : BBox)
    (flags : Nat) (r : InsertionResult) (s1 : Store)
    (hins : s.insert id bbox flags = some (r, s1))
    (hext : s.externalGetter = none)
    (hstore : mapGet s.objectStore id = none)
    (hidx : mapGet s.objectIndex id = none)
    (htbl : ∀ j : Nat, s.handleToId.getD j none ≠ some id) :
    (s1.remove id).get id = none ∧
    ∀ (bounds : BBox) (outLen : Nat) (fopts : FindOptions) (h : Nat),
      h ∈ (s1.remove id).findResults bounds outLen fopts →
      (s1.remove id).handleToId.getD h none ≠ some id := by
  obtain ⟨hos, hex, ⟨rec, hrh, hoidx⟩, hself, hother⟩ :=
    insert_spec s id bbox flags r s1 hins hidx
  have hrec : mapGet s1.objectIndex id = some rec := by
    rw [hoidx]
    exact mapGet_mapSet_eq _ _ _
  obtain ⟨ros, rex, rtbl, _, _⟩ := remove_spec s1 id rec hrec
  constructor
  · unfold Store.get
    rw [rex, hex, hext]
    show mapGet (s1.remove id).objectStore id = none
    rw [ros, hos]
    exact hstore
  · intro bounds outLen fopts h hmem
    rw [rtbl]
    by_cases hh : h = rec.handle
    · subst hh
      rw [getD_growSet_self]
      exact fun hc => Option.noConfusion hc
    · rcases getD_growSet_other s1.handleToId rec.handle h none none
        (fun he => hh he.symm) with hc | hc
      · rw [hc]
        have hjh : h ≠ (s.obtainHandle id).1 := by
          rw [← hrh]
          exact hh
        rcases hother h hjh with hd | hd
        · rw [hd]
          exact htbl h
        · rw [hd]
          exact fun hc2 => Option.noConfusion hc2
      · rw [hc]
        exact fun hc2 => Option.noConfusion hc2

/-- The concrete insert run backing the round-trip witness. -/
def c2pair : InsertionResult × Store :=
  ((freshStore wopts).insert 7 boxA 0).getD
    ({ handle := 0, nodeId := 0, flags := 0, inserted := false }, freshStore wopts)

theorem c2_insert_remove_roundtrip_witness :
    ((c2pair.2.remove 7).get 7 = none ∧
      ∀ (bounds : BBox) (outLen : Nat) (fopts : FindOptions) (h : Nat),
        h ∈ (c2pair.2.remove 7).findResults bounds outLen fopts →
        (c2pair.2.remove 7).handleToId.getD h none ≠ some 7) :=
  c2_insert_remove_roundtrip (freshStore wopts) 7 boxA 0 c2pair.1 c2pair.2
    (by with_unfolding_all rfl)
    (by with_unfolding_all rfl)
    (by with_unfolding_all rfl)
    (by with_unfolding_all rfl)
    (by
      intro j
      have harr : (freshStore wopts).handleToId = Array.mkArray 8 none := by
        with_unfolding_all rfl
      rw [harr]
      unfold Array.getD
      split
      · simp
      · exact fun hc => Option.noConfusion hc)


theorem size_growTo_le (a : Array α) (cap : Nat) (d : α) :
    a.size ≤ (growTo a cap d).size := by
  unfold growTo
  split
  · exact Nat.le_refl _
  · rw [Array.size_append]
    exact Nat.le_add_right _ _

/-- obtainHandle never shrinks the bounding-box arena (it only ever doubles
it through resizeHandles). -/
theorem obtainHandle_bounds_size (s : Store) (id : Nat) :
    s.objectBounds.size ≤ (s.obtainHandle id).2.objectBounds.size := by
  unfold Store.obtainHandle Store.expandHandles Store.resizeHandles
  split
  · exact Nat.le_refl _
  · dsimp only
    repeat' split
    all_goals first
      | exact Nat.le_refl _
      | exact size_growTo_le _ _ _

/-- A successful insert returns the obtained handle and stores the inserted
bbox at that slot of the bounding-box arena. -/
theorem insert_handle_spec (s : Store) (id : Nat) (bbox : BBox) (flags : Nat)
    (r : InsertionResult) (s1 : Store)
    (hins : s.insert id bbox flags = some (r, s1)) :
    r.handle = ((s.obtainHandle id).1 : Int) ∧
    s1.objectBounds = (s.obtainHandle id).2.objectBounds.setD (s.obtainHandle id).1 bbox := by
  unfold Store.insert at hins
  dsimp only at hins
  split at hins
  · exact Option.noConfusion hins
  · rename_i nodeId sE heq
    injection hins with hp
    injection hp with hr hs1
    subst hs1
    subst hr
    refine ⟨rfl, ?_⟩
    have hcf := coreFrame_insertHandle _ _ _ _ heq
    have hstep : coreFrame sE =
        coreFrame ((s.obtainHandle id).2.writeBoundingBox (s.obtainHandle id).1 bbox) := by
      refine hcf.trans ?_
      split
      · exact (coreFrame_purgeHandleFromNode _ _ _).trans (coreFrame_ensureRootBounds _ _)
      · exact coreFrame_ensureRootBounds _ _
    have h5 : sE.objectBounds =
        (s.obtainHandle id).2.objectBounds.setD (s.obtainHandle id).1 bbox :=
      congrArg (fun p => p.2.2.2.2) hstep
    exact h5

/-- C8: after remove(A) followed by insert(B, bbox) for B ≠ A, the returned
handle (possibly A's recycled one) resolves through the handle-to-id table to
B, its stored bounding box is the freshly inserted bbox, and no handle at all
still resolves to A. -/
theorem c8_handle_reuse_safe (s : Store) (A B : Nat) (bbox : BBox) (flags : Nat)
    (recA : ObjectRecord) (r : InsertionResult) (s2 : Store)
    (hrecA : mapGet s.objectIndex A = some recA)
    (hins : (s.remove A).insert B bbox flags = some (r, s2))
    (hB : mapGet s.objectIndex B = none)
    (hAB : A ≠ B)
    (huniq : ∀ j : Nat, s.handleToId.getD j none = some A → j = recA.handle) :
    ∃ handle : Nat, r.handle = (handle : Int) ∧
      s2.handleToId.getD handle none = some B ∧
      (handle < (s.remove A).objectBounds.size → s2.readBoundingBox handle = bbox) ∧
      ∀ j : Nat, s2.handleToId.getD j none ≠ some A := by
  obtain ⟨ros, rex, rtbl, ridx, rbounds⟩ := remove_spec s A recA hrecA
  have hBrem : mapGet (s.remove A).objectIndex B = none := by
    rw [ridx, mapGet_mapDel_ne _ _ _ hAB]
    exact hB
  obtain ⟨hos, hex, ⟨rec, hrh, hoidx⟩, hself, hother⟩ :=
    insert_spec (s.remove A) B bbox flags r s2 hins hBrem
  obtain ⟨hrhandle, hbounds⟩ := insert_handle_spec (s.remove A) B bbox flags r s2 hins
  refine ⟨((s.remove A).obtainHandle B).1, hrhandle, hself, ?_, ?_⟩
  · intro hlt
    unfold Store.readBoundingBox
    rw [hbounds]
    refine getD_setD_eq _ _ _ _ ?_
    calc ((s.remove A).obtainHandle B).1
        < (s.remove A).objectBounds.size := hlt
      _ ≤ ((s.remove A).obtainHandle B).2.objectBounds.size := obtainHandle_bounds_size _ _
  · intro j
    by_cases hj : j = ((s.remove A).obtainHandle B).1
    · subst hj
      rw [hself]
      intro hc
      injection hc with hc2
      exact hAB hc2.symm
    · rcases hother j hj with hd | hd
      · rw [hd, rtbl]
        by_cases hj2 : j = recA.handle
        · subst hj2
          rw [getD_growSet_self]
          exact fun hc => Option.noConfusion hc
        · rcases getD_growSet_other s.handleToId recA.handle j none none
            (fun he => hj2 he.symm) with he | he
          · rw [he]
            intro hc
            exact hj2 (huniq j hc)
          · rw [he]
            exact fun hc => Option.noConfusion hc
      · rw [hd]
        exact fun hc => Option.noConfusion hc

/-- The store backing the handle-reuse witness: one object (id 3) inserted
into a fresh store. -/
def c8base : Store := (((freshStore wopts).insert 3 boxA 0).getD
  ({ handle := 0, nodeId := 0, flags := 0, inserted := false }, freshStore wopts)).2

/-- Object 3's index record in that store. -/
def c8brec : ObjectRecord := (mapGet c8base.objectIndex 3).getD
  { id := 0, handle := 0, nodeId := 0, flags := 0, updateTicks := 0, windowTicks := 0 }

/-- The remove(3); insert(5) run backing the handle-reuse witness. -/
def c8pair : InsertionResult × Store :=
  ((c8base.remove 3).insert 5 boxB 0).getD
    ({ handle := 0, nodeId := 0, flags := 0, inserted := false }, freshStore wopts)

theorem c8_handle_reuse_safe_witness :
    ∃ handle : Nat, c8pair.1.handle = (handle : Int) ∧
      c8pair.2.handleToId.getD handle none = some 5 ∧
      (handle < (c8base.remove 3).objectBounds.size →
        c8pair.2.readBoundingBox handle = boxB) ∧
      ∀ j : Nat, c8pair.2.handleToId.getD j none ≠ some 3 :=
  c8_handle_reuse_safe c8base 3 5 boxB 0 c8brec c8pair.1 c8pair.2
    (by with_unfolding_all rfl)
    (by with_unfolding_all rfl)
    (by with_unfolding_all rfl)
    (by decide)
    (by
      intro j hj
      have harr : c8base.handleToId =
          #[some 3, none, none, none, none, none, none, none] := by
        with_unfolding_all rfl
      have hh : c8brec.handle = 0 := by with_unfolding_all rfl
      rw [harr] at hj
      rw [hh]
      unfold Array.getD at hj
      split at hj
      · rename_i hlt
        have hlt8 : j < 8 := hlt
        interval_cases j
        · rfl
        all_goals exact Option.noConfusion hj
      · exact absurd hj (by simp))


/-! ## Stale handles: never returned, purged from the walked list (C7) -/

/-- A handle that passes the walk's validity screen as far as the caller can
observe it: its handle-to-id slot is occupied and its Deleted bit is clear. -/
def staleFree (s : Store) (h : Nat) : Prop :=
  (s.handleToId.getD h none).isSome = true ∧ (s.objectFlags.getD h 0) &&& flagDeleted = 0

theorem staleFree_congr {s t : Store} (h1 : s.handleToId = t.handleToId)
    (h2 : s.objectFlags = t.objectFlags) (h : Nat) :
    staleFree s h ↔ staleFree t h := by
  unfold staleFree
  rw [h1, h2]

theorem detachRef_handleToId (s : Store) (n r p : Int) (h : Option Nat) :
    (s.detachRef n r p h).handleToId = s.handleToId :=
  congrArg (fun q => q.2.2.1) (coreFrame_detachRef s n r p h)

theorem detachRef_objectFlags (s : Store) (n r p : Int) (h : Option Nat) :
    (s.detachRef n r p h).objectFlags = s.objectFlags := by
  unfold Store.detachRef
  dsimp only
  repeat' split
  all_goals rfl

theorem walkRefs_valid (bounds : BBox) (incl mall : Bool) (nodeId : Int)
    (maxTraverse outLen : Nat) :
    ∀ (fuel : Nat) (s : Store) (ref prevRef : Int) (traversed count : Nat)
      (out : Array Nat) (res : Nat × Array Nat × Store × Nat × Bool),
      s.walkRefs bounds incl mall nodeId ref prevRef traversed maxTraverse
        count out outLen fuel = res →
      (∀ i, i < count → i < out.size → staleFree s (out.getD i 0)) →
      res.2.2.1.handleToId = s.handleToId ∧ res.2.2.1.objectFlags = s.objectFlags ∧
      res.2.1.size = out.size ∧ count ≤ res.1 ∧
      (∀ i, i < res.1 → i < res.2.1.size → staleFree s (res.2.1.getD i 0)) := by
  intro fuel
  induction fuel with
  | zero =>
    intro s ref prevRef traversed count out res heq hpre
    subst heq
    exact ⟨rfl, rfl, rfl, Nat.le_refl _, hpre⟩
  | succ fuel ih =>
    intro s ref prevRef traversed count out res heq hpre
    subst heq
    unfold Store.walkRefs
    dsimp only
    by_cases hg1 : ref = -1 ∨ ¬ traversed < maxTraverse
    · rw [if_pos hg1]
      exact ⟨rfl, rfl, rfl, Nat.le_refl _, hpre⟩
    · rw [if_neg hg1]
      by_cases hg2 : ref < 0 ∨ ref ≥ (s.objectRefHandle.size : Int)
      · rw [if_pos hg2]
        exact ⟨rfl, rfl, rfl, Nat.le_refl _, hpre⟩
      · rw [if_neg hg2]
        by_cases hstale : idxGet s.objectRefHandle ref 0 ≥ s.objectCapacity ∨
            s.handleToId.getD (idxGet s.objectRefHandle ref 0) none = none ∨
            s.objectNode.getD (idxGet s.objectRefHandle ref 0) (-1) ≠ nodeId ∨
            (s.objectFlags.getD (idxGet s.objectRefHandle ref 0) 0) &&& flagDeleted ≠ 0
        · rw [if_pos hstale]
          have hht := detachRef_handleToId s nodeId ref prevRef
            (some (idxGet s.objectRefHandle ref 0))
          have hfl := detachRef_objectFlags s nodeId ref prevRef
            (some (idxGet s.objectRefHandle ref 0))
          have hpre2 : ∀ i, i < count → i < out.size →
              staleFree (s.detachRef nodeId ref prevRef
                (some (idxGet s.objectRefHandle ref 0))) (out.getD i 0) := by
            intro i hi hsz
            exact (staleFree_congr hht hfl _).mpr (hpre i hi hsz)
          obtain ⟨q1, q2, q3, q4, q5⟩ := ih _ _ _ _ _ _ _ rfl hpre2
          refine ⟨q1.trans hht, q2.trans hfl, q3, q4, ?_⟩
          intro i hi hsz
          exact (staleFree_congr hht hfl _).mp (q5 i hi hsz)
        · rw [if_neg hstale]
          push_neg at hstale
          obtain ⟨hcap, hslot, hnode, hflag⟩ := hstale
          have hlive : staleFree s (idxGet s.objectRefHandle ref 0) := by
            refine ⟨?_, hflag⟩
            rcases ho : s.handleToId.getD (idxGet s.objectRefHandle ref 0) none with _ | v
            · exact absurd ho hslot
            · rfl
          by_cases hhit : (mall ∨ (s.objectFlags.getD (idxGet s.objectRefHandle ref 0) 0) &&&
                flagDeleted = 0) ∧
              bboxIntersects (s.readBoundingBox (idxGet s.objectRefHandle ref 0)) bounds = true ∧
              (incl ∨ (s.objectFlags.getD (idxGet s.objectRefHandle ref 0) 0) &&& flagDynamic = 0)
          · rw [if_pos hhit]
            have hpre3 : ∀ i, i < count + 1 →
                i < (out.setD count (idxGet s.objectRefHandle ref 0)).size →
                staleFree s ((out.setD count (idxGet s.objectRefHandle ref 0)).getD i 0) := by
              intro i hi hsz
              rw [Array.size_setD] at hsz
              rcases Nat.lt_or_ge i count with hic | hic
              · rw [getD_setD_ne _ _ _ _ _ (fun he => (Nat.ne_of_lt hic) he.symm)]
                exact hpre i hic hsz
              · have hieq : i = count := by omega
                subst hieq
                rw [getD_setD_eq _ _ _ _ hsz]
                exact hlive
            by_cases hfull : count + 1 ≥ outLen
            · rw [if_pos hfull]
              refine ⟨rfl, rfl, Array.size_setD _ _ _, by omega, ?_⟩
              intro i hi hsz
              exact hpre3 i hi hsz
            · rw [if_neg hfull]
              obtain ⟨q1, q2, q3, q4, q5⟩ := ih _ _ _ _ _ _ _ rfl hpre3
              rw [Array.size_setD] at q3
              exact ⟨q1, q2, q3, by omega, q5⟩
          · rw [if_neg hhit]
            obtain ⟨q1, q2, q3, q4, q5⟩ := ih _ _ _ _ _ _ _ rfl hpre
            exact ⟨q1, q2, q3, q4, q5⟩

theorem findLoop_valid (bounds : BBox) (incl mall : Bool) (outLen : Nat) :
    ∀ (fuel : Nat) (s : Store) (stack : List Int) (visits count : Nat)
      (out : Array Nat) (res : Nat × Array Nat × Store),
      s.findLoop bounds incl mall stack visits count out outLen fuel = res →
      (∀ i, i < count → i < out.size → staleFree s (out.getD i 0)) →
      res.2.2.handleToId = s.handleToId ∧ res.2.2.objectFlags = s.objectFlags ∧
      res.2.1.size = out.size ∧
      (∀ i, i < res.1 → i < res.2.1.size → staleFree s (res.2.1.getD i 0)) := by
  intro fuel
  induction fuel with
  | zero =>
    intro s stack visits count out res heq hpre
    subst heq
    exact ⟨rfl, rfl, rfl, hpre⟩
  | succ fuel ih =>
    intro s stack visits count out res heq hpre
    subst heq
    unfold Store.findLoop
    rcases stack with _ | ⟨nodeId, rest⟩
    · exact ⟨rfl, rfl, rfl, hpre⟩
    · dsimp only
      by_cases hv : visits + 1 > 10000
      · rw [if_pos hv]
        exact ⟨rfl, rfl, rfl, fun i hi _ => absurd hi (by omega)⟩
      · rw [if_neg hv]
        by_cases hint : ¬ s.nodeIntersects nodeId bounds = true
        · rw [if_pos hint]
          exact ih _ _ _ _ _ _ rfl hpre
        · rw [if_neg hint]
          rcases hw : s.walkRefs bounds incl mall nodeId (s.pool.getFirstObject nodeId) (-1)
              0 (s.pool.getObjectCount nodeId * 2 + 10) count out outLen
              (s.pool.getObjectCount nodeId * 2 + 10 + 1) with
            ⟨count2, out2, s2, trav2, full2⟩
          dsimp only
          obtain ⟨w1, w2, w3, _, w5⟩ := walkRefs_valid bounds incl mall nodeId _ outLen
            _ s _ _ _ _ _ _ hw hpre
          by_cases hfull : full2 = true
          · rw [if_pos hfull]
            exact ⟨w1, w2, w3, w5⟩
          · rw [if_neg hfull]
            by_cases htrav : trav2 ≥ s.pool.getObjectCount nodeId * 2 + 10
            · rw [if_pos htrav]
              exact ⟨w1, w2, w3, w5⟩
            · rw [if_neg htrav]
              have hpre2 : ∀ i, i < count2 → i < out2.size → staleFree s2 (out2.getD i 0) := by
                intro i hi hsz
                exact (staleFree_congr w1 w2 _).mpr (w5 i hi hsz)
              obtain ⟨q1, q2, q3, q4⟩ := ih _ _ _ _ _ _ rfl hpre2
              refine ⟨q1.trans w1, q2.trans w2, q3.trans w3, ?_⟩
              intro i hi hsz
              exact (staleFree_congr w1 w2 _).mp (q4 i hi hsz)


/-- The list of reference indices reachable from a start pointer: `r` points
at the head, each element's objectRefNext pointer at the next, and the last
pointer is the -1 terminator. -/
def isChain (s : Store) : Int → List Int → Prop
  | r, [] => r = -1
  | r, x :: xs => r = x ∧ isChain s (idxGet s.objectRefNext x (-1)) xs

instance isChainDec (s : Store) (r : Int) (R : List Int) : Decidable (isChain s r R) :=
  match R with
  | [] => inferInstanceAs (Decidable (r = -1))
  | x :: xs =>
    have := isChainDec s (idxGet s.objectRefNext x (-1)) xs
    inferInstanceAs (Decidable (_ ∧ _))

theorem isChain_nil (s : Store) (r : Int) : isChain s r [] ↔ r = -1 := Iff.rfl

theorem isChain_cons (s : Store) (r x : Int) (xs : List Int) :
    isChain s r (x :: xs) ↔ r = x ∧ isChain s (idxGet s.objectRefNext x (-1)) xs := Iff.rfl

/-- A node's full reference list. -/
def nodeChain (s : Store) (nodeId : Int) (R : List Int) : Prop :=
  isChain s (s.pool.getFirstObject nodeId) R

instance (s : Store) (nodeId : Int) (R : List Int) : Decidable (nodeChain s nodeId R) :=
  isChainDec s (s.pool.getFirstObject nodeId) R

/-- The walk's validity screen for one reference, phrased positively: the
negation of the skip-and-purge condition in the source findInBounds. -/
def validRef (s : Store) (nodeId r : Int) : Bool :=
  let handle := idxGet s.objectRefHandle r 0
  decide (¬ (handle ≥ s.objectCapacity ∨ s.handleToId.getD handle none = none ∨
    s.objectNode.getD handle (-1) ≠ nodeId ∨
    (s.objectFlags.getD handle 0) &&& flagDeleted ≠ 0))

theorem size_idxSet (a : Array α) (i : Int) (v : α) : (idxSet a i v).size = a.size := by
  unfold idxSet
  split
  · rfl
  · exact Array.size_setD _ _ _

theorem idxGet_idxSet_eq (a : Array α) (i : Int) (v d : α)
    (h0 : 0 ≤ i) (hs : i < (a.size : Int)) : idxGet (idxSet a i v) i d = v := by
  unfold idxGet idxSet
  rw [if_neg (by omega), if_neg (by omega)]
  exact getD_setD_eq _ _ _ _ (by omega)

theorem idxGet_idxSet_ne (a : Array α) (i j : Int) (v d : α) (h : i ≠ j) :
    idxGet (idxSet a i v) j d = idxGet a j d := by
  unfold idxGet idxSet
  by_cases hj : j < 0
  · rw [if_pos hj, if_pos hj]
  · rw [if_neg hj, if_neg hj]
    by_cases hi : i < 0
    · rw [if_pos hi]
    · rw [if_neg hi]
      exact getD_setD_ne _ _ _ _ _ (fun he => h (by omega))

theorem decrement_firstObject (p : NodePool) (n : Int) :
    (p.decrementObjectCount n).firstObject = p.firstObject := by
  unfold NodePool.decrementObjectCount
  split <;> rfl

theorem detachRef_objectRefHandle (s : Store) (n r p : Int) (h : Option Nat) :
    (s.detachRef n r p h).objectRefHandle = idxSet s.objectRefHandle r 0 := by
  unfold Store.detachRef
  dsimp only
  repeat' split
  all_goals rfl

theorem detachRef_objectRefNext_head (s : Store) (n r : Int) (h : Option Nat) :
    (s.detachRef n r (-1) h).objectRefNext = idxSet s.objectRefNext r (-1) := by
  unfold Store.detachRef
  dsimp only
  rw [if_pos rfl]
  repeat' split
  all_goals rfl

theorem detachRef_objectRefNext_mid (s : Store) (n r p : Int) (h : Option Nat)
    (hp : p ≠ -1) :
    (s.detachRef n r p h).objectRefNext =
      idxSet (idxSet s.objectRefNext p (idxGet s.objectRefNext r (-1))) r (-1) := by
  unfold Store.detachRef
  dsimp only
  rw [if_neg hp]
  repeat' split
  all_goals rfl

theorem detachRef_firstObject_head (s : Store) (n r : Int) (h : Option Nat) :
    (s.detachRef n r (-1) h).pool.firstObject =
      idxSet s.pool.firstObject n (idxGet s.objectRefNext r (-1)) := by
  unfold Store.detachRef NodePool.setFirstObject
  dsimp only
  rw [if_pos rfl]
  rw [decrement_firstObject]
  repeat' split
  all_goals rfl

theorem detachRef_firstObject_mid (s : Store) (n r p : Int) (h : Option Nat)
    (hp : p ≠ -1) :
    (s.detachRef n r p h).pool.firstObject = s.pool.firstObject := by
  unfold Store.detachRef
  dsimp only
  rw [if_neg hp]
  rw [decrement_firstObject]
  repeat' split
  all_goals rfl

theorem detachRef_objectNode_getD (s : Store) (n r p : Int) (hdl : Nat)
    (k : Nat) (d : Int) (hk : k ≠ hdl) :
    (s.detachRef n r p (some hdl)).objectNode.getD k d = s.objectNode.getD k d := by
  unfold Store.detachRef
  dsimp only
  repeat' split
  all_goals first
    | rfl
    | exact getD_setD_ne _ _ _ _ _ (fun he => hk he.symm)

theorem detachRef_objectCapacity (s : Store) (n r p : Int) (h : Option Nat) :
    (s.detachRef n r p h).objectCapacity = s.objectCapacity := by
  unfold Store.detachRef
  dsimp only
  repeat' split
  all_goals rfl

/-- A chain only depends on the next pointers of its members. -/
theorem isChain_congr (s t : Store) (R : List Int)
    (hnext : ∀ x ∈ R, idxGet t.objectRefNext x (-1) = idxGet s.objectRefNext x (-1)) :
    ∀ p, isChain s p R → isChain t p R := by
  induction R with
  | nil => intro p h; exact h
  | cons x xs ih =>
    intro p h
    rw [isChain_cons] at h ⊢
    obtain ⟨hp, h2⟩ := h
    refine ⟨hp, ?_⟩
    rw [hnext x (List.mem_cons_self _ _)]
    exact ih (fun y hy => hnext y (List.mem_cons_of_mem _ hy)) _ h2


theorem isChain_next_mid (s : Store) (ref : Int) (rest : List Int) :
    ∀ (done : List Int) (p : Int), isChain s p (done ++ ref :: rest) →
      idxGet s.objectRefNext ref (-1) = rest.headD (-1) := by
  intro done
  induction done with
  | nil =>
    intro p hc
    rw [List.nil_append, isChain_cons] at hc
    rcases rest with _ | ⟨x, xs⟩
    · exact hc.2
    · exact hc.2.1
  | cons d ds ih =>
    intro p hc
    rw [List.cons_append, isChain_cons] at hc
    exact ih _ hc.2

theorem detach_chain_head (s : Store) (nodeId ref : Int) (rest : List Int) (h : Option Nat)
    (hchain : nodeChain s nodeId (ref :: rest))
    (hnotin : ref ∉ rest)
    (hn0 : 0 ≤ nodeId) (hns : nodeId < (s.pool.firstObject.size : Int)) :
    nodeChain (s.detachRef nodeId ref (-1) h) nodeId rest := by
  unfold nodeChain at hchain ⊢
  rw [isChain_cons] at hchain
  obtain ⟨hp, h2⟩ := hchain
  unfold NodePool.getFirstObject
  rw [detachRef_firstObject_head, idxGet_idxSet_eq _ _ _ _ hn0 hns]
  refine isChain_congr s _ rest ?_ _ h2
  intro x hx
  rw [detachRef_objectRefNext_head]
  exact idxGet_idxSet_ne _ _ _ _ _ (fun he => hnotin (by rw [he]; exact hx))

theorem isChain_unlink (s : Store) (nodeId ref prevRef : Int) (rest : List Int)
    (h : Option Nat)
    (hpr : prevRef ≠ -1)
    (hrr : ref ≠ prevRef)
    (hrrest : ref ∉ rest) (hprest : prevRef ∉ rest)
    (hprange : 0 ≤ prevRef) (hpsz : prevRef < (s.objectRefNext.size : Int)) :
    ∀ (done : List Int) (p : Int),
      isChain s p (done ++ [prevRef] ++ ref :: rest) →
      ref ∉ done → prevRef ∉ done →
      isChain (s.detachRef nodeId ref prevRef h) p (done ++ [prevRef] ++ rest) := by
  intro done
  induction done with
  | nil =>
    intro p hc _ _
    simp only [List.nil_append, List.cons_append, List.singleton_append] at hc ⊢
    rw [isChain_cons] at hc ⊢
    obtain ⟨hp, hc2⟩ := hc
    rw [isChain_cons] at hc2
    obtain ⟨hr, hc3⟩ := hc2
    refine ⟨hp, ?_⟩
    have hnext : idxGet (s.detachRef nodeId ref prevRef h).objectRefNext prevRef (-1) =
        idxGet s.objectRefNext ref (-1) := by
      rw [detachRef_objectRefNext_mid s nodeId ref prevRef h hpr]
      rw [idxGet_idxSet_ne _ _ _ _ _ (fun he => hrr he)]
      exact idxGet_idxSet_eq _ _ _ _ hprange hpsz
    rw [hnext]
    refine isChain_congr s _ rest ?_ _ hc3
    intro x hx
    rw [detachRef_objectRefNext_mid s nodeId ref prevRef h hpr]
    rw [idxGet_idxSet_ne _ _ _ _ _ (fun he => hrrest (by rw [he]; exact hx))]
    exact idxGet_idxSet_ne _ _ _ _ _ (fun he => hprest (by rw [he]; exact hx))
  | cons d ds ih =>
    intro p hc hrd hpd
    simp only [List.cons_append] at hc ⊢
    rw [isChain_cons] at hc ⊢
    obtain ⟨hp, hc2⟩ := hc
    refine ⟨hp, ?_⟩
    have hd1 : ref ≠ d := fun he => hrd (by rw [he]; exact List.mem_cons_self _ _)
    have hd2 : prevRef ≠ d := fun he => hpd (by rw [he]; exact List.mem_cons_self _ _)
    have hnext : idxGet (s.detachRef nodeId ref prevRef h).objectRefNext d (-1) =
        idxGet s.objectRefNext d (-1) := by
      rw [detachRef_objectRefNext_mid s nodeId ref prevRef h hpr]
      rw [idxGet_idxSet_ne _ _ _ _ _ hd1]
      exact idxGet_idxSet_ne _ _ _ _ _ hd2
    rw [hnext]
    exact ih _ hc2 (fun hm => hrd (List.mem_cons_of_mem _ hm))
      (fun hm => hpd (List.mem_cons_of_mem _ hm))

/-- Unlinking a reference from anywhere in a node's list, with the walk's
previous-pointer bookkeeping: the detached store's list is the old list with
that reference removed. -/
theorem detach_chain (s : Store) (nodeId ref : Int) (done rest : List Int)
    (h : Option Nat)
    (hchain : nodeChain s nodeId (done ++ ref :: rest))
    (hnodup : (done ++ ref :: rest).Nodup)
    (hrange : ∀ r ∈ done ++ ref :: rest, 0 ≤ r ∧ r < (s.objectRefHandle.size : Int) ∧
      r < (s.objectRefNext.size : Int))
    (hn0 : 0 ≤ nodeId) (hns : nodeId < (s.pool.firstObject.size : Int)) :
    nodeChain (s.detachRef nodeId ref (done.getLastD (-1)) h) nodeId (done ++ rest) := by
  rcases hdone : done.reverse with _ | ⟨last, revInit⟩
  · have hd : done = [] := by
      have := congrArg List.reverse hdone
      simpa using this
    subst hd
    simp only [List.nil_append, List.getLastD_nil] at hchain ⊢
    refine detach_chain_head s nodeId ref rest h hchain ?_ hn0 hns
    exact (by simpa using hnodup : ref ∉ rest ∧ rest.Nodup).1
  · have hd : done = revInit.reverse ++ [last] := by
      have := congrArg List.reverse hdone
      simpa using this
    subst hd
    have hlast : (revInit.reverse ++ [last]).getLastD (-1) = last := List.getLastD_concat _ _ _
    rw [hlast]
    have hsplit : revInit.reverse ++ [last] ++ ref :: rest =
        revInit.reverse ++ ([last] ++ ref :: rest) := by
      rw [List.append_assoc]
    have hnodup2 := hnodup
    rw [hsplit, List.nodup_append] at hnodup2
    obtain ⟨hnodupInit, hnodupTail, hdisj⟩ := hnodup2
    have hnodupTail2 := hnodupTail
    simp only [List.singleton_append, List.nodup_cons, List.mem_cons] at hnodupTail2
    obtain ⟨hlastNotIn, hrefNodup⟩ := hnodupTail2
    have hlr : 0 ≤ last ∧ last < (s.objectRefHandle.size : Int) ∧
        last < (s.objectRefNext.size : Int) := by
      refine hrange last ?_
      rw [hsplit]
      exact List.mem_append_right _ (by simp)
    unfold nodeChain at hchain ⊢
    have hgoal := isChain_unlink s nodeId ref last rest h
      (by omega) (fun he => hlastNotIn (by rw [← he]; exact Or.inl rfl))
      (by
        intro hm
        rcases hrefNodup with ⟨hrn, _⟩
        exact hrn (by simp [hm]))
      (fun hm => hlastNotIn (Or.inr hm))
      hlr.1 hlr.2.2
      revInit.reverse (s.pool.getFirstObject nodeId)
      hchain
      (by
        intro hm
        exact (hdisj hm) (by simp))
      (by
        intro hm
        exact (hdisj hm) (by simp))
    have hfo : (s.detachRef nodeId ref last h).pool.getFirstObject nodeId =
        s.pool.getFirstObject nodeId := by
      unfold NodePool.getFirstObject
      rw [detachRef_firstObject_mid s nodeId ref last h (by omega)]
    rw [hfo]
    exact hgoal


theorem detachRef_sizes (s : Store) (n r p : Int) (h : Option Nat) :
    (s.detachRef n r p h).objectRefHandle.size = s.objectRefHandle.size ∧
    (s.detachRef n r p h).objectRefNext.size = s.objectRefNext.size ∧
    (s.detachRef n r p h).pool.firstObject.size = s.pool.firstObject.size := by
  by_cases hp : p = -1
  · subst hp
    refine ⟨?_, ?_, ?_⟩
    · rw [detachRef_objectRefHandle]
      exact size_idxSet _ _ _
    · rw [detachRef_objectRefNext_head]
      exact size_idxSet _ _ _
    · rw [detachRef_firstObject_head]
      exact size_idxSet _ _ _
  · refine ⟨?_, ?_, ?_⟩
    · rw [detachRef_objectRefHandle]
      exact size_idxSet _ _ _
    · rw [detachRef_objectRefNext_mid s n r p h hp]
      rw [size_idxSet, size_idxSet]
    · rw [detachRef_firstObject_mid s n r p h hp]

/-- Detaching one reference does not change the validity of any reference
with a different index and a different handle. -/
theorem validRef_detach (s : Store) (nodeId ref prevRef x : Int)
    (hx : x ≠ ref)
    (hhdl : idxGet s.objectRefHandle x 0 ≠ idxGet s.objectRefHandle ref 0) :
    validRef (s.detachRef nodeId ref prevRef (some (idxGet s.objectRefHandle ref 0))) nodeId x =
      validRef s nodeId x := by
  unfold validRef
  dsimp only
  rw [detachRef_objectRefHandle, idxGet_idxSet_ne _ _ _ _ _ (fun he => hx he.symm)]
  rw [detachRef_handleToId, detachRef_objectFlags, detachRef_objectCapacity]
  rw [detachRef_objectNode_getD _ _ _ _ _ _ _ hhdl]


/-- The reference-list walk purges exactly the stale references: starting
after a processed prefix `done` with the unprocessed suffix `rest` of a
node's list, with distinct references carrying distinct handles, enough
output room and enough of the source's traversal budget, the walked store's
list for that node is the prefix followed by the valid survivors of the
suffix. -/
theorem walkRefs_chain (bounds : BBox) (incl mall : Bool) (nodeId : Int) (outLen : Nat) :
    ∀ (rest : List Int) (s : Store) (done : List Int) (traversed count : Nat)
      (out : Array Nat) (maxTraverse fuel : Nat),
      nodeChain s nodeId (done ++ rest) →
      (done ++ rest).Nodup →
      (∀ r ∈ done ++ rest, 0 ≤ r ∧ r < (s.objectRefHandle.size : Int) ∧
        r < (s.objectRefNext.size : Int)) →
      ((done ++ rest).map (fun r => idxGet s.objectRefHandle r 0)).Nodup →
      0 ≤ nodeId → nodeId < (s.pool.firstObject.size : Int) →
      traversed + rest.length ≤ maxTraverse →
      count + rest.length < outLen →
      rest.length < fuel →
      nodeChain
        (s.walkRefs bounds incl mall nodeId (rest.headD (-1)) (done.getLastD (-1))
          traversed maxTraverse count out outLen fuel).2.2.1
        nodeId (done ++ rest.filter (fun r => validRef s nodeId r)) := by
  intro rest
  induction rest with
  | nil =>
    intro s done traversed count out maxTraverse fuel hchain hnodup hrange hhdl hn0 hns htrav hcount hfuel
    rcases fuel with _ | fuel
    · omega
    · unfold Store.walkRefs
      dsimp only
      simp only [List.headD_nil]
      rw [if_pos (show True ∨ ¬ traversed < maxTraverse from Or.inl trivial)]
      simpa using hchain
  | cons ref rest ih =>
    intro s done traversed count out maxTraverse fuel hchain hnodup hrange hhdl hn0 hns htrav hcount hfuel
    rcases fuel with _ | fuel
    · simp only [List.length_cons] at hfuel
      omega
    · have hrmem : ref ∈ done ++ ref :: rest := List.mem_append_right _ (List.mem_cons_self _ _)
      have hr0 : 0 ≤ ref := (hrange ref hrmem).1
      have hrs1 : ref < (s.objectRefHandle.size : Int) := (hrange ref hrmem).2.1
      have htrav' : traversed < maxTraverse := by
        simp only [List.length_cons] at htrav
        omega
      have hnext : idxGet s.objectRefNext ref (-1) = rest.headD (-1) :=
        isChain_next_mid s ref rest done _ hchain
      have hrefrest : ref ∉ rest := by
        have h2 : (ref :: rest).Nodup := hnodup.of_append_right
        exact (List.nodup_cons.mp h2).1
      have hinj : ∀ x, x ∈ done ++ ref :: rest → ∀ y, y ∈ done ++ ref :: rest →
          idxGet s.objectRefHandle x 0 = idxGet s.objectRefHandle y 0 → x = y :=
        fun x hx y hy hf => List.inj_on_of_nodup_map hhdl hx hy hf
      unfold Store.walkRefs
      dsimp only
      simp only [List.headD_cons]
      rw [if_neg (by push_neg; exact ⟨by omega, htrav'⟩)]
      rw [if_neg (by push_neg; exact ⟨by omega, by omega⟩)]
      by_cases hstale : idxGet s.objectRefHandle ref 0 ≥ s.objectCapacity ∨
          s.handleToId.getD (idxGet s.objectRefHandle ref 0) none = none ∨
          s.objectNode.getD (idxGet s.objectRefHandle ref 0) (-1) ≠ nodeId ∨
          (s.objectFlags.getD (idxGet s.objectRefHandle ref 0) 0) &&& flagDeleted ≠ 0
      · rw [if_pos hstale]
        have hvfalse : validRef s nodeId ref = false := by
          unfold validRef
          dsimp only
          exact decide_eq_false (not_not_intro hstale)
        have hd := detach_chain s nodeId ref done rest
          (some (idxGet s.objectRefHandle ref 0)) hchain hnodup hrange hn0 hns
        have hsub : List.Sublist (done ++ rest) (done ++ ref :: rest) :=
          List.Sublist.append_left (List.sublist_cons_self ref rest) done
        have hnodup2 : (done ++ rest).Nodup := hnodup.sublist hsub
        have hszs := detachRef_sizes s nodeId ref (done.getLastD (-1))
          (some (idxGet s.objectRefHandle ref 0))
        have hrange2 : ∀ r ∈ done ++ rest, 0 ≤ r ∧
            r < (((s.detachRef nodeId ref (done.getLastD (-1))
              (some (idxGet s.objectRefHandle ref 0))).objectRefHandle.size : Nat) : Int) ∧
            r < (((s.detachRef nodeId ref (done.getLastD (-1))
              (some (idxGet s.objectRefHandle ref 0))).objectRefNext.size : Nat) : Int) := by
          intro r hrm
          obtain ⟨a, b, c⟩ := hrange r (hsub.subset hrm)
          rw [hszs.1, hszs.2.1]
          exact ⟨a, b, c⟩
        have hrne : ∀ x, x ∈ done ++ rest → x ≠ ref := by
          intro x hx he
          subst he
          have h2 := List.nodup_append.mp hnodup
          rcases List.mem_append.mp hx with hxa | hxb
          · exact (h2.2.2 hxa) (List.mem_cons_self _ _)
          · exact hrefrest hxb
        have hmapeq : (done ++ rest).map (fun r => idxGet
              (s.detachRef nodeId ref (done.getLastD (-1))
                (some (idxGet s.objectRefHandle ref 0))).objectRefHandle r 0) =
            (done ++ rest).map (fun r => idxGet s.objectRefHandle r 0) := by
          refine List.map_congr_left ?_
          intro x hx
          rw [detachRef_objectRefHandle]
          exact idxGet_idxSet_ne _ _ _ _ _ (fun he => hrne x hx he.symm)
        have hhdl2 : ((done ++ rest).map (fun r => idxGet
              (s.detachRef nodeId ref (done.getLastD (-1))
                (some (idxGet s.objectRefHandle ref 0))).objectRefHandle r 0)).Nodup := by
          rw [hmapeq]
          exact hhdl.sublist (hsub.map _)
        have hfo2 : nodeId < (((s.detachRef nodeId ref (done.getLastD (-1))
            (some (idxGet s.objectRefHandle ref 0))).pool.firstObject.size : Nat) : Int) := by
          rw [hszs.2.2]
          exact hns
        have hrec := ih (s.detachRef nodeId ref (done.getLastD (-1))
            (some (idxGet s.objectRefHandle ref 0))) done (traversed + 1) count out
            maxTraverse fuel hd hnodup2 hrange2 hhdl2 hn0 hfo2
          (by simp only [List.length_cons] at htrav; omega)
          (by simp only [List.length_cons] at hcount; omega)
          (by simp only [List.length_cons] at hfuel; omega)
        have hfeq : rest.filter (fun r => validRef
              (s.detachRef nodeId ref (done.getLastD (-1))
                (some (idxGet s.objectRefHandle ref 0))) nodeId r) =
            rest.filter (fun r => validRef s nodeId r) := by
          refine List.filter_congr ?_
          intro x hx
          have hxmem : x ∈ done ++ rest := List.mem_append_right _ hx
          refine validRef_detach s nodeId ref (done.getLastD (-1)) x (hrne x hxmem) ?_
          intro hfe
          exact hrne x hxmem (hinj x (hsub.subset hxmem) ref hrmem hfe)
        rw [hfeq] at hrec
        rw [hnext]
        rw [show (ref :: rest).filter (fun r => validRef s nodeId r) =
            rest.filter (fun r => validRef s nodeId r) from by
          rw [List.filter_cons]
          simp [hvfalse]]
        exact hrec
      · rw [if_neg hstale]
        have hvtrue : validRef s nodeId ref = true := by
          unfold validRef
          dsimp only
          exact decide_eq_true hstale
        have hassoc : (done ++ [ref]) ++ rest = done ++ ref :: rest := by simp
        have hfilter : (ref :: rest).filter (fun r => validRef s nodeId r) =
            ref :: rest.filter (fun r => validRef s nodeId r) :=
          List.filter_cons_of_pos hvtrue
        by_cases hhit : (mall = true ∨ (s.objectFlags.getD (idxGet s.objectRefHandle ref 0) 0) &&&
              flagDeleted = 0) ∧
            bboxIntersects (s.readBoundingBox (idxGet s.objectRefHandle ref 0)) bounds = true ∧
            (incl = true ∨ (s.objectFlags.getD (idxGet s.objectRefHandle ref 0) 0) &&&
              flagDynamic = 0)
        · rw [if_pos hhit]
          have hnofull : ¬ count + 1 ≥ outLen := by
            simp only [List.length_cons] at hcount
            omega
          rw [if_neg hnofull]
          have hrec := ih s (done ++ [ref]) (traversed + 1) (count + 1)
            (out.setD count (idxGet s.objectRefHandle ref 0)) maxTraverse fuel
            (by rw [hassoc]; exact hchain) (by rw [hassoc]; exact hnodup)
            (by rw [hassoc]; exact hrange) (by rw [hassoc]; exact hhdl) hn0 hns
            (by simp only [List.length_cons] at htrav; omega)
            (by simp only [List.length_cons] at hcount; omega)
            (by simp only [List.length_cons] at hfuel; omega)
          rw [List.getLastD_concat] at hrec
          rw [hnext, hfilter]
          simp only [List.append_assoc, List.singleton_append] at hrec
          exact hrec
        · rw [if_neg hhit]
          have hrec := ih s (done ++ [ref]) (traversed + 1) count out maxTraverse fuel
            (by rw [hassoc]; exact hchain) (by rw [hassoc]; exact hnodup)
            (by rw [hassoc]; exact hrange) (by rw [hassoc]; exact hhdl) hn0 hns
            (by simp only [List.length_cons] at htrav; omega)
            (by simp only [List.length_cons] at hcount; omega)
            (by simp only [List.length_cons] at hfuel; omega)
          rw [List.getLastD_concat] at hrec
          rw [hnext, hfilter]
          simp only [List.append_assoc, List.singleton_append] at hrec
          exact hrec


theorem mem_take_getD (a : Array Nat) (n : Nat) (h : Nat)
    (hm : h ∈ a.toList.take n) : ∃ i, i < n ∧ i < a.size ∧ a.getD i 0 = h := by
  obtain ⟨i, hi, hgl⟩ := List.getElem_of_mem hm
  have hlen : i < n ∧ i < a.toList.length := by
    rw [List.length_take] at hi
    omega
  refine ⟨i, hlen.1, by simpa using hlen.2, ?_⟩
  rw [List.getElem_take] at hgl
  unfold Array.getD
  rw [dif_pos (by simpa using hlen.2)]
  rw [← hgl]
  simp

/-- C7: findInBounds never returns a stale handle: every handle in the
result set has an occupied handle-to-id slot and a clear Deleted bit.  And a
stale reference encountered while walking a node's reference list is
unlinked (purged) rather than returned or left in place: walking a
well-formed list leaves the node with exactly its valid references. -/
theorem c7_stale_purged_never_returned :
    ∀ (s : Store) (bounds : BBox) (outLen : Nat) (fopts : FindOptions),
      (∀ h ∈ s.findResults bounds outLen fopts,
        (s.handleToId.getD h none).isSome = true ∧
        (s.objectFlags.getD h 0) &&& flagDeleted = 0) ∧
      (∀ (nodeId : Int) (R : List Int) (incl mall : Bool) (out : Array Nat)
         (maxTraverse fuel : Nat),
        nodeChain s nodeId R → R.Nodup →
        (∀ r ∈ R, 0 ≤ r ∧ r < (s.objectRefHandle.size : Int) ∧
          r < (s.objectRefNext.size : Int)) →
        (R.map (fun r => idxGet s.objectRefHandle r 0)).Nodup →
        0 ≤ nodeId → nodeId < (s.pool.firstObject.size : Int) →
        R.length ≤ maxTraverse → R.length < outLen → R.length < fuel →
        nodeChain
          (s.walkRefs bounds incl mall nodeId (R.headD (-1)) (-1) 0 maxTraverse
            0 out outLen fuel).2.2.1 nodeId
          (R.filter (fun r => validRef s nodeId r))) := by
  intro s bounds outLen fopts
  constructor
  · intro h hm
    unfold Store.findResults at hm
    rcases hf : s.findInBounds bounds outLen fopts with ⟨count, out, s2⟩
    rw [hf] at hm
    dsimp only at hm
    unfold Store.findInBounds at hf
    dsimp only at hf
    obtain ⟨_, _, _, q4⟩ := findLoop_valid bounds (fopts.includeDynamic.getD true)
      (fopts.modeAll.getD false) outLen 10002 s [s.rootNodeId] 0 0
      (Array.mkArray outLen 0) (count, out, s2) hf
      (fun i hi _ => absurd hi (by omega))
    obtain ⟨i, hin, hisz, hival⟩ := mem_take_getD out count h hm
    have := q4 i hin hisz
    rw [hival] at this
    exact this
  · intro nodeId R incl mall out maxTraverse fuel hchain hnodup hrange hhdl hn0 hns hlen hout hfuel
    have := walkRefs_chain bounds incl mall nodeId outLen R s [] 0 0 out maxTraverse fuel
      (by simpa using hchain) (by simpa using hnodup) (by simpa using hrange)
      (by simpa using hhdl) hn0 hns (by simpa using hlen) (by simpa using hout)
      hfuel
    simpa using this

theorem c7_stale_purged_never_returned_witness :
    nodeChain c8base 0 [0] ∧
    nodeChain
      ((c8base.walkRefs boxA true false 0 ([0].headD (-1)) (-1) 0 12
        0 (Array.mkArray 4 0) 4 13).2.2.1) 0
      ([0].filter (fun r => validRef c8base 0 r)) := by
  have hchain : nodeChain c8base 0 [0] := by
    with_unfolding_all exact of_decide_eq_true rfl
  refine ⟨hchain, ?_⟩
  refine (c7_stale_purged_never_returned c8base boxA 4 {}).2 0 [0] true false
    (Array.mkArray 4 0) 12 13 hchain (by decide) ?_ ?_ (by decide) ?_
    (by decide) (by decide) (by decide)
  · with_unfolding_all exact of_decide_eq_true rfl
  · with_unfolding_all exact of_decide_eq_true rfl
  · with_unfolding_all exact of_decide_eq_true rfl


/-! ## No false negatives for positive-area boxes (C1) -/

/-- Containment of one rectangle in another (the claim's "fully lies
within"). -/
def boxInside (b q : BBox) : Prop :=
  q.x ≤ b.x ∧ q.y ≤ b.y ∧ b.x + b.w ≤ q.x + q.w ∧ b.y + b.h ≤ q.y + q.h

instance (b q : BBox) : Decidable (boxInside b q) :=
  inferInstanceAs (Decidable (_ ∧ _ ∧ _ ∧ _))

/-- The hit condition of the source walk for one reference. -/
def hitRef (s : Store) (bounds : BBox) (incl mall : Bool) (r : Int) : Prop :=
  (mall = true ∨ (s.objectFlags.getD (idxGet s.objectRefHandle r 0) 0) &&& flagDeleted = 0) ∧
  bboxIntersects (s.readBoundingBox (idxGet s.objectRefHandle r 0)) bounds = true ∧
  (incl = true ∨ (s.objectFlags.getD (idxGet s.objectRefHandle r 0) 0) &&& flagDynamic = 0)

theorem validRef_spec (s : Store) (nodeId r : Int) (h : validRef s nodeId r = true) :
    ¬(idxGet s.objectRefHandle r 0 ≥ s.objectCapacity ∨
      s.handleToId.getD (idxGet s.objectRefHandle r 0) none = none ∨
      s.objectNode.getD (idxGet s.objectRefHandle r 0) (-1) ≠ nodeId ∨
      (s.objectFlags.getD (idxGet s.objectRefHandle r 0) 0) &&& flagDeleted ≠ 0) :=
  of_decide_eq_true h

theorem isChain_headD (s : Store) (p : Int) (R : List Int) (h : isChain s p R) :
    p = R.headD (-1) := by
  rcases R with _ | ⟨x, xs⟩
  · exact h
  · exact h.1

/-- The walk over an all-valid reference list: the store is untouched, the
walk traverses the whole list without filling the buffer or hitting the
budget, the existing output prefix is preserved and every hit reference's
handle gets written. -/
theorem walkRefs_clean (bounds : BBox) (incl mall : Bool) (nodeId : Int) (outLen : Nat) :
    ∀ (rest : List Int) (s : Store) (prevRef : Int) (traversed count : Nat)
      (out : Array Nat) (maxTraverse fuel : Nat),
      isChain s (rest.headD (-1)) rest →
      (∀ r ∈ rest, validRef s nodeId r = true) →
      (∀ r ∈ rest, 0 ≤ r ∧ r < (s.objectRefHandle.size : Int)) →
      traversed + rest.length < maxTraverse →
      count + rest.length < outLen →
      rest.length < fuel →
      out.size = outLen →
      (s.walkRefs bounds incl mall nodeId (rest.headD (-1)) prevRef traversed maxTraverse
        count out outLen fuel).2.2.1 = s ∧
      (s.walkRefs bounds incl mall nodeId (rest.headD (-1)) prevRef traversed maxTraverse
        count out outLen fuel).2.2.2.1 = traversed + rest.length ∧
      (s.walkRefs bounds incl mall nodeId (rest.headD (-1)) prevRef traversed maxTraverse
        count out outLen fuel).2.2.2.2 = false ∧
      count ≤ (s.walkRefs bounds incl mall nodeId (rest.headD (-1)) prevRef traversed maxTraverse
        count out outLen fuel).1 ∧
      (s.walkRefs bounds incl mall nodeId (rest.headD (-1)) prevRef traversed maxTraverse
        count out outLen fuel).1 ≤ count + rest.length ∧
      (s.walkRefs bounds incl mall nodeId (rest.headD (-1)) prevRef traversed maxTraverse
        count out outLen fuel).2.1.size = out.size ∧
      (∀ j, j < count →
        (s.walkRefs bounds incl mall nodeId (rest.headD (-1)) prevRef traversed maxTraverse
          count out outLen fuel).2.1.getD j 0 = out.getD j 0) ∧
      (∀ r ∈ rest, hitRef s bounds incl mall r →
        ∃ i, count ≤ i ∧
          i < (s.walkRefs bounds incl mall nodeId (rest.headD (-1)) prevRef traversed
            maxTraverse count out outLen fuel).1 ∧
          (s.walkRefs bounds incl mall nodeId (rest.headD (-1)) prevRef traversed maxTraverse
            count out outLen fuel).2.1.getD i 0 = idxGet s.objectRefHandle r 0) := by
  intro rest
  induction rest with
  | nil =>
    intro s prevRef traversed count out maxTraverse fuel hchain hvalid hrange htrav hcount hfuel hsz
    rcases fuel with _ | fuel
    · omega
    · unfold Store.walkRefs
      dsimp only
      simp only [List.headD_nil]
      rw [if_pos (show True ∨ ¬ traversed < maxTraverse from Or.inl trivial)]
      refine ⟨rfl, by simp, rfl, Nat.le_refl _, by simp, rfl, fun j _ => rfl, ?_⟩
      intro r hr
      exact absurd hr (List.not_mem_nil r)
  | cons ref rest ih =>
    intro s prevRef traversed count out maxTraverse fuel hchain hvalid hrange htrav hcount hfuel hsz
    rcases fuel with _ | fuel
    · simp only [List.length_cons] at hfuel
      omega
    · have hr0 : 0 ≤ ref := (hrange ref (List.mem_cons_self _ _)).1
      have hrs1 : ref < (s.objectRefHandle.size : Int) := (hrange ref (List.mem_cons_self _ _)).2
      have htrav' : traversed < maxTraverse := by
        simp only [List.length_cons] at htrav
        omega
      have hchain' : isChain s ref (ref :: rest) := by
        rw [isChain_cons] at hchain ⊢
        exact ⟨rfl, hchain.2⟩
      have hnext : idxGet s.objectRefNext ref (-1) = rest.headD (-1) :=
        isChain_headD s _ rest hchain'.2
      have hvr := validRef_spec s nodeId ref (hvalid ref (List.mem_cons_self _ _))
      unfold Store.walkRefs
      dsimp only
      simp only [List.headD_cons]
      rw [if_neg (by push_neg; exact ⟨by omega, htrav'⟩)]
      rw [if_neg (by push_neg; exact ⟨by omega, by omega⟩)]
      rw [if_neg hvr]
      have hchainrest : isChain s (rest.headD (-1)) rest := by
        rw [← hnext]
        exact hchain'.2
      by_cases hhit : (mall = true ∨ (s.objectFlags.getD (idxGet s.objectRefHandle ref 0) 0) &&&
            flagDeleted = 0) ∧
          bboxIntersects (s.readBoundingBox (idxGet s.objectRefHandle ref 0)) bounds = true ∧
          (incl = true ∨ (s.objectFlags.getD (idxGet s.objectRefHandle ref 0) 0) &&&
            flagDynamic = 0)
      · rw [if_pos hhit]
        have hnofull : ¬ count + 1 ≥ outLen := by
          simp only [List.length_cons] at hcount
          omega
        rw [if_neg hnofull]
        obtain ⟨q1, q2, q3, q4, q5, q6, q7, q8⟩ := ih s ref (traversed + 1)
          (count + 1) (out.setD count (idxGet s.objectRefHandle ref 0)) maxTraverse fuel
          hchainrest
          (fun r hr => hvalid r (List.mem_cons_of_mem _ hr))
          (fun r hr => hrange r (List.mem_cons_of_mem _ hr))
          (by simp only [List.length_cons] at htrav; omega)
          (by simp only [List.length_cons] at hcount; omega)
          (by simp only [List.length_cons] at hfuel; omega)
          (by rw [Array.size_setD]; exact hsz)
        rw [hnext]
        rw [Array.size_setD] at q6
        have hcsz : count < out.size := by
          simp only [List.length_cons] at hcount
          omega
        refine ⟨q1, ?_, q3, by omega, ?_, q6, ?_, ?_⟩
        · rw [q2]
          simp only [List.length_cons]
          omega
        · simp only [List.length_cons]
          omega
        · intro j hj
          rw [q7 j (by omega)]
          exact getD_setD_ne _ _ _ _ _ (fun he => (Nat.ne_of_lt hj) he.symm)
        · intro r hr hhitr
          rcases List.mem_cons.mp hr with hre | hrm
          · subst hre
            refine ⟨count, Nat.le_refl _, by omega, ?_⟩
            rw [q7 count (by omega)]
            exact getD_setD_eq _ _ _ _ hcsz
          · obtain ⟨i, hi1, hi2, hi3⟩ := q8 r hrm hhitr
            exact ⟨i, by omega, hi2, hi3⟩
      · rw [if_neg hhit]
        obtain ⟨q1, q2, q3, q4, q5, q6, q7, q8⟩ := ih s ref (traversed + 1)
          count out maxTraverse fuel
          hchainrest
          (fun r hr => hvalid r (List.mem_cons_of_mem _ hr))
          (fun r hr => hrange r (List.mem_cons_of_mem _ hr))
          (by simp only [List.length_cons] at htrav; omega)
          (by simp only [List.length_cons] at hcount; omega)
          (by simp only [List.length_cons] at hfuel; omega)
          hsz
        rw [hnext]
        refine ⟨q1, ?_, q3, q4, ?_, q6, q7, ?_⟩
        · rw [q2]
          simp only [List.length_cons]
          omega
        · simp only [List.length_cons]
          omega
        · intro r hr hhitr
          rcases List.mem_cons.mp hr with hre | hrm
          · subst hre
            exact absurd hhitr hhit
          · exact q8 r hrm hhitr


/-- The nodes of the quadtree subtree hanging under a node, to a given
depth budget. -/
def subtreeNodes (s : Store) : Nat → Int → List Int
  | 0, n => [n]
  | d + 1, n => n :: (s.nodeChildren n).bind (fun c => subtreeNodes s d c)

/-- The depth budget dominates the actual subtree depth. -/
def wellDepth (s : Store) : Nat → Int → Prop
  | 0, n => s.nodeChildren n = []
  | d + 1, n => ∀ c ∈ s.nodeChildren n, wellDepth s d c

/-- Per-node well-formedness for the query traversal: the node's reference
list is linked, all of its references are valid and in range, and its length
sits inside the source's traversal budget. -/
def nodeOK (s : Store) (R : Int → List Int) (m : Int) : Prop :=
  isChain s (s.pool.getFirstObject m) (R m) ∧
  (∀ r ∈ R m, validRef s m r = true ∧ 0 ≤ r ∧ r < (s.objectRefHandle.size : Int)) ∧
  (R m).length < s.pool.getObjectCount m * 2 + 10

/-- Total number of subtree nodes hanging under the (node, depth budget)
entries of the explicit traversal stack. -/
def entrySum (s : Store) (entries : List (Int × Nat)) : Nat :=
  (entries.map (fun e => (subtreeNodes s e.2 e.1).length)).sum

/-- Total reference-list length over an entry's subtree. -/
def nodeObjSum (s : Store) (R : Int → List Int) (d : Nat) (n : Int) : Nat :=
  ((subtreeNodes s d n).map (fun m => (R m).length)).sum

def entryObjSum (s : Store) (R : Int → List Int) (entries : List (Int × Nat)) : Nat :=
  (entries.map (fun e => nodeObjSum s R e.2 e.1)).sum

/-- A root-to-target path along which every node loosely contains the target
object's box. -/
def pathToTarget (s : Store) (box : BBox) (n0 : Int) : Nat → Int → Prop
  | 0, n => n = n0 ∧ s.fitsNode n box = true
  | d + 1, n => s.fitsNode n box = true ∧
      (n = n0 ∨ ∃ c ∈ s.nodeChildren n, pathToTarget s box n0 d c)

/-- A node that loosely contains a positive-area box lying inside the query
rectangle passes the traversal's intersection test. -/
theorem nodeIntersects_of_fits (s : Store) (n : Int) (box bounds : BBox)
    (hfit : s.fitsNode n box = true) (hw : 0 < box.w) (hh : 0 < box.h)
    (hin : boxInside box bounds) : s.nodeIntersects n bounds = true := by
  unfold Store.fitsNode at hfit
  unfold Store.nodeIntersects
  have hf := of_decide_eq_true hfit
  obtain ⟨f1, f2, f3, f4⟩ := hf
  obtain ⟨i1, i2, i3, i4⟩ := hin
  refine decide_eq_true ?_
  refine ⟨by linarith, by linarith, by linarith, by linarith⟩

theorem entrySum_cons (s : Store) (e : Int × Nat) (l : List (Int × Nat)) :
    entrySum s (e :: l) = (subtreeNodes s e.2 e.1).length + entrySum s l := by
  simp [entrySum]

theorem entryObjSum_cons (s : Store) (R : Int → List Int) (e : Int × Nat)
    (l : List (Int × Nat)) :
    entryObjSum s R (e :: l) = nodeObjSum s R e.2 e.1 + entryObjSum s R l := by
  simp [entryObjSum]

theorem entrySum_append (s : Store) (l1 l2 : List (Int × Nat)) :
    entrySum s (l1 ++ l2) = entrySum s l1 + entrySum s l2 := by
  simp [entrySum]

theorem entryObjSum_append (s : Store) (R : Int → List Int) (l1 l2 : List (Int × Nat)) :
    entryObjSum s R (l1 ++ l2) = entryObjSum s R l1 + entryObjSum s R l2 := by
  simp [entryObjSum]

theorem subtreeNodes_length_pos (s : Store) (d : Nat) (n : Int) :
    0 < (subtreeNodes s d n).length := by
  cases d <;> simp [subtreeNodes]

theorem subtreeNodes_self_mem (s : Store) (d : Nat) (n : Int) :
    n ∈ subtreeNodes s d n := by
  cases d <;> simp [subtreeNodes]

theorem subtreeNodes_child_mem (s : Store) (d : Nat) (n c m : Int)
    (hc : c ∈ s.nodeChildren n) (hm : m ∈ subtreeNodes s d c) :
    m ∈ subtreeNodes s (d + 1) n := by
  simp only [subtreeNodes, List.mem_cons, List.mem_bind]
  exact Or.inr ⟨c, hc, hm⟩

theorem entrySum_children (s : Store) (l : List Int) (d : Nat) :
    entrySum s (l.reverse.map (fun c => (c, d))) =
      (l.map (fun c => (subtreeNodes s d c).length)).sum := by
  unfold entrySum
  rw [List.map_map]
  rw [show ((fun (e : Int × Nat) => (subtreeNodes s e.2 e.1).length) ∘ fun c => (c, d)) =
    fun c => (subtreeNodes s d c).length from rfl]
  rw [List.map_reverse, List.sum_reverse]

theorem entryObjSum_children (s : Store) (R : Int → List Int) (l : List Int) (d : Nat) :
    entryObjSum s R (l.reverse.map (fun c => (c, d))) =
      (l.map (fun c => nodeObjSum s R d c)).sum := by
  unfold entryObjSum
  rw [List.map_map]
  rw [show ((fun (e : Int × Nat) => nodeObjSum s R e.2 e.1) ∘ fun c => (c, d)) =
    fun c => nodeObjSum s R d c from rfl]
  rw [List.map_reverse, List.sum_reverse]

theorem subtreeNodes_succ_length (s : Store) (d : Nat) (n : Int) :
    (subtreeNodes s (d + 1) n).length =
      1 + ((s.nodeChildren n).map (fun c => (subtreeNodes s d c).length)).sum := by
  simp only [subtreeNodes, List.length_cons, List.length_flatMap]
  rw [show List.length ∘ (fun c => subtreeNodes s d c) =
    fun c => (subtreeNodes s d c).length from rfl]
  omega

theorem sum_map_flatMap (l : List Int) (f : Int → List Int) (g : Int → Nat) :
    ((l.flatMap f).map g).sum = (l.map (fun a => ((f a).map g).sum)).sum := by
  induction l with
  | nil => rfl
  | cons x xs ih => simp [List.flatMap_cons, ih]

theorem nodeObjSum_succ (s : Store) (R : Int → List Int) (d : Nat) (n : Int) :
    nodeObjSum s R (d + 1) n =
      (R n).length + ((s.nodeChildren n).map (fun c => nodeObjSum s R d c)).sum := by
  unfold nodeObjSum
  simp only [subtreeNodes, List.map_cons, List.sum_cons]
  rw [sum_map_flatMap]


theorem map_fst_pairs (l : List Int) (d : Nat) :
    (l.map (fun c => (c, d))).map Prod.fst = l := by
  rw [List.map_map]
  rw [show (Prod.fst ∘ fun c => (c, d)) = id from rfl]
  exact List.map_id l

theorem nodeObjSum_self_le (s : Store) (R : Int → List Int) (d : Nat) (n : Int) :
    (R n).length ≤ nodeObjSum s R d n := by
  unfold nodeObjSum
  refine List.single_le_sum (fun x _ => Nat.zero_le x) _ ?_
  exact List.mem_map_of_mem _ (subtreeNodes_self_mem s d n)

/-- Down the explicit traversal stack of findInBounds: if the target node is
reachable through a stack entry whose whole path loosely contains the
target's positive-area box, the target handle ends up in the output. -/
theorem findLoop_reaches (s : Store) (bounds : BBox) (incl mall : Bool) (outLen : Nat)
    (R : Int → List Int) (box : BBox) (n0 r0 : Int)
    (hw : 0 < box.w) (hh : 0 < box.h) (hin : boxInside box bounds)
    (hhit0 : hitRef s bounds incl mall r0)
    (hr0 : r0 ∈ R n0) :
    ∀ (fuel : Nat) (entries : List (Int × Nat)) (visits count : Nat) (out : Array Nat)
      (res : Nat × Array Nat × Store),
      s.findLoop bounds incl mall (entries.map Prod.fst) visits count out outLen fuel = res →
      (∀ e ∈ entries, wellDepth s e.2 e.1) →
      (∀ e ∈ entries, ∀ m ∈ subtreeNodes s e.2 e.1, nodeOK s R m) →
      visits + entrySum s entries ≤ 10000 →
      entrySum s entries < fuel →
      count + entryObjSum s R entries < outLen →
      out.size = outLen →
      ((∃ i, i < count ∧ i < out.size ∧ out.getD i 0 = idxGet s.objectRefHandle r0 0) ∨
        (∃ e ∈ entries, pathToTarget s box n0 e.2 e.1)) →
      ∃ i, i < res.1 ∧ i < res.2.1.size ∧
        res.2.1.getD i 0 = idxGet s.objectRefHandle r0 0 := by
  intro fuel
  induction fuel with
  | zero =>
    intro entries visits count out res heq hdepth hnok hvis hfuel hbuf hsz hgoal
    omega
  | succ fuel ih =>
    intro entries visits count out res heq hdepth hnok hvis hfuel hbuf hsz hgoal
    subst heq
    rcases entries with _ | ⟨⟨n, dep⟩, rest⟩
    · rcases hgoal with ⟨i, hi1, hi2, hi3⟩ | ⟨e, he, _⟩
      · exact ⟨i, hi1, hi2, hi3⟩
      · exact absurd he (List.not_mem_nil e)
    · unfold Store.findLoop
      simp only [List.map_cons]
      rw [entrySum_cons] at hvis hfuel
      rw [entryObjSum_cons] at hbuf
      dsimp only at hvis hfuel hbuf
      have hspos : 0 < (subtreeNodes s dep n).length := subtreeNodes_length_pos s dep n
      rw [if_neg (show ¬ visits + 1 > 10000 by omega)]
      by_cases hint : s.nodeIntersects n bounds = true
      · rw [if_neg (show ¬ ¬ s.nodeIntersects n bounds = true from not_not_intro hint)]
        obtain ⟨hchain, hvalidrange, hlen⟩ :=
          hnok ⟨n, dep⟩ (List.mem_cons_self _ _) n (subtreeNodes_self_mem s dep n)
        have hfo : s.pool.getFirstObject n = (R n).headD (-1) := isChain_headD _ _ _ hchain
        have hRle : (R n).length ≤ nodeObjSum s R dep n := nodeObjSum_self_le s R dep n
        rw [hfo]
        obtain ⟨w1, w2, w3, w4, w5, w6, w7, w8⟩ := walkRefs_clean bounds incl mall n outLen
          (R n) s (-1) 0 count out (s.pool.getObjectCount n * 2 + 10)
          (s.pool.getObjectCount n * 2 + 10 + 1)
          (by rw [← hfo]; exact hchain)
          (fun r hr => (hvalidrange r hr).1)
          (fun r hr => ⟨(hvalidrange r hr).2.1, (hvalidrange r hr).2.2⟩)
          (by omega) (by omega) (by omega) hsz
        rw [w3]
        rw [if_neg (show ¬ false = true from Bool.false_ne_true)]
        rw [w2]
        rw [if_neg (show ¬ 0 + (R n).length ≥ s.pool.getObjectCount n * 2 + 10 by omega)]
        rw [w1]
        rcases dep with _ | d
        · have hch : s.nodeChildren n = [] := hdepth ⟨n, 0⟩ (List.mem_cons_self _ _)
          rw [hch]
          simp only [List.reverse_nil, List.nil_append]
          have h1 : (subtreeNodes s 0 n).length = 1 := rfl
          have h2 : nodeObjSum s R 0 n = (R n).length := by
            unfold nodeObjSum subtreeNodes
            simp
          refine ih rest (visits + 1) _ _ _ rfl
            (fun e he => hdepth e (List.mem_cons_of_mem _ he))
            (fun e he => hnok e (List.mem_cons_of_mem _ he))
            (by omega) (by omega) (by omega) (by rw [w6]; exact hsz) ?_
          rcases hgoal with ⟨i, hi1, hi2, hi3⟩ | ⟨e, he, hp⟩
          · left
            refine ⟨i, by omega, ?_, ?_⟩
            · rw [w6]
              exact hi2
            · rw [w7 i hi1]
              exact hi3
          · rcases List.mem_cons.mp he with hee | hem
            · have hp2 : pathToTarget s box n0 0 n := by
                rw [hee] at hp
                exact hp
              have hr0n : r0 ∈ R n := by
                rw [hp2.1]
                exact hr0
              left
              obtain ⟨i, hi1, hi2, hi3⟩ := w8 r0 hr0n hhit0
              refine ⟨i, hi2, ?_, hi3⟩
              rw [w6]
              omega
            · right
              exact ⟨e, hem, hp⟩
        · rw [show (s.nodeChildren n).reverse =
            (((s.nodeChildren n).reverse.map (fun c => (c, d))).map Prod.fst) from
            (map_fst_pairs _ _).symm]
          rw [← List.map_append]
          have hsl := subtreeNodes_succ_length s d n
          have hos := nodeObjSum_succ s R d n
          refine ih (((s.nodeChildren n).reverse.map (fun c => (c, d))) ++ rest)
            (visits + 1) _ _ _ rfl ?_ ?_ ?_ ?_ ?_ ?_ ?_
          · intro e he2
            rcases List.mem_append.mp he2 with hca | hcb
            · obtain ⟨c, hc, hce⟩ := List.mem_map.mp hca
              have hcrev : c ∈ s.nodeChildren n := List.mem_reverse.mp hc
              have hwd := hdepth ⟨n, d + 1⟩ (List.mem_cons_self _ _)
              rw [← hce]
              exact hwd c hcrev
            · exact hdepth e (List.mem_cons_of_mem _ hcb)
          · intro e he2 m hm
            rcases List.mem_append.mp he2 with hca | hcb
            · obtain ⟨c, hc, hce⟩ := List.mem_map.mp hca
              have hcrev : c ∈ s.nodeChildren n := List.mem_reverse.mp hc
              refine hnok ⟨n, d + 1⟩ (List.mem_cons_self _ _) m ?_
              refine subtreeNodes_child_mem s d n c m hcrev ?_
              rw [← hce] at hm
              exact hm
            · exact hnok e (List.mem_cons_of_mem _ hcb) m hm
          · rw [entrySum_append, entrySum_children]
            omega
          · rw [entrySum_append, entrySum_children]
            omega
          · rw [entryObjSum_append, entryObjSum_children]
            omega
          · rw [w6]
            exact hsz
          · rcases hgoal with ⟨i, hi1, hi2, hi3⟩ | ⟨e, he, hp⟩
            · left
              refine ⟨i, by omega, ?_, ?_⟩
              · rw [w6]
                exact hi2
              · rw [w7 i hi1]
                exact hi3
            · rcases List.mem_cons.mp he with hee | hem
              · have hp2 : pathToTarget s box n0 (d + 1) n := by
                  rw [hee] at hp
                  exact hp
                rcases hp2.2 with hn0 | ⟨c, hc, hpc⟩
                · have hr0n : r0 ∈ R n := by
                    rw [hn0]
                    exact hr0
                  left
                  obtain ⟨i, hi1, hi2, hi3⟩ := w8 r0 hr0n hhit0
                  refine ⟨i, hi2, ?_, hi3⟩
                  rw [w6]
                  omega
                · right
                  refine ⟨(c, d), ?_, hpc⟩
                  refine List.mem_append.mpr (Or.inl ?_)
                  exact List.mem_map_of_mem _ (List.mem_reverse.mpr hc)
              · right
                exact ⟨e, List.mem_append.mpr (Or.inr hem), hp⟩
      · rw [if_pos (show ¬ s.nodeIntersects n bounds = true from hint)]
        refine ih rest (visits + 1) count out _ rfl
          (fun e he => hdepth e (List.mem_cons_of_mem _ he))
          (fun e he => hnok e (List.mem_cons_of_mem _ he))
          (by omega) (by omega) (by omega) hsz ?_
        rcases hgoal with hl | ⟨e, he, hp⟩
        · exact Or.inl hl
        · rcases List.mem_cons.mp he with hee | hem
          · exfalso
            have hfit : s.fitsNode n box = true := by
              rcases dep with _ | d
              · have hp2 : pathToTarget s box n0 0 n := by
                  rw [hee] at hp
                  exact hp
                exact hp2.2
              · have hp2 : pathToTarget s box n0 (d + 1) n := by
                  rw [hee] at hp
                  exact hp
                exact hp2.1
            exact hint (nodeIntersects_of_fits s n box bounds hfit hw hh hin)
          · exact Or.inr ⟨e, hem, hp⟩


instance (s : Store) (R : Int → List Int) (m : Int) : Decidable (nodeOK s R m) :=
  inferInstanceAs (Decidable (_ ∧ _ ∧ _))

instance pathToTargetDec (s : Store) (box : BBox) (n0 : Int) :
    ∀ (d : Nat) (n : Int), Decidable (pathToTarget s box n0 d n)
  | 0, _ => inferInstanceAs (Decidable (_ ∧ _))
  | d + 1, n =>
    have : ∀ c, Decidable (pathToTarget s box n0 d c) := fun c => pathToTargetDec s box n0 d c
    inferInstanceAs (Decidable (_ ∧ (_ ∨ _)))

theorem bboxIntersects_of_inside (b q : BBox) (hw : 0 < b.w) (hh : 0 < b.h)
    (hin : boxInside b q) : bboxIntersects b q = true := by
  unfold bboxIntersects
  obtain ⟨i1, i2, i3, i4⟩ := hin
  exact decide_eq_true ⟨by linarith, by linarith, by linarith, by linarith⟩

theorem getD_mem_take (a : Array Nat) (n i : Nat) (hi : i < n) (hisz : i < a.size) :
    a.getD i 0 ∈ a.toList.take n := by
  have hlt : i < (a.toList.take n).length := by
    rw [List.length_take]
    simp only [Array.length_toList]
    omega
  have hval : (a.toList.take n).get ⟨i, hlt⟩ = a.getD i 0 := by
    rw [List.get_eq_getElem, List.getElem_take]
    unfold Array.getD
    rw [dif_pos hisz]
    simp
  rw [← hval]
  exact List.get_mem (List.take n a.toList) _ hlt

/-- C1: as stated the claim fails for a degenerate box touching the query's
boundary (see the counterexample below: strict comparisons miss it even
though containment holds); amended with a positive-area requirement it holds:
if the stored box of an indexed object has positive width and height and
lies fully inside the query rectangle, and the store's quadtree under the
root is well-formed (linked valid reference lists within the traversal
budget, node total within the visit budget, total object count below the
output buffer length) with the object's node reached through nodes that
loosely contain its box, then findInBounds returns the object's handle. -/
theorem c1_no_false_negatives_amended
    (s : Store) (bounds : BBox) (outLen : Nat) (fopts : FindOptions)
    (R : Int → List Int) (d0 : Nat) (n0 r0 : Int)
    (hdepth : wellDepth s d0 s.rootNodeId)
    (hnodes : ∀ m ∈ subtreeNodes s d0 s.rootNodeId, nodeOK s R m)
    (hvisit : (subtreeNodes s d0 s.rootNodeId).length ≤ 10000)
    (hbuf : nodeObjSum s R d0 s.rootNodeId < outLen)
    (hpath : pathToTarget s (s.readBoundingBox (idxGet s.objectRefHandle r0 0)) n0 d0
      s.rootNodeId)
    (hr0 : r0 ∈ R n0)
    (hn0sub : n0 ∈ subtreeNodes s d0 s.rootNodeId)
    (hw : 0 < (s.readBoundingBox (idxGet s.objectRefHandle r0 0)).w)
    (hh : 0 < (s.readBoundingBox (idxGet s.objectRefHandle r0 0)).h)
    (hin : boxInside (s.readBoundingBox (idxGet s.objectRefHandle r0 0)) bounds)
    (hdyn : fopts.includeDynamic.getD true = true ∨
      (s.objectFlags.getD (idxGet s.objectRefHandle r0 0) 0) &&& flagDynamic = 0) :
    idxGet s.objectRefHandle r0 0 ∈ s.findResults bounds outLen fopts := by
  have hOK := hnodes n0 hn0sub
  have hval := (hOK.2.1 r0 hr0).1
  have hvr := validRef_spec s n0 r0 hval
  push_neg at hvr
  obtain ⟨hv1, hv2, hv3, hv4⟩ := hvr
  have hhit0 : hitRef s bounds (fopts.includeDynamic.getD true)
      (fopts.modeAll.getD false) r0 := by
    refine ⟨Or.inr hv4, ?_, hdyn⟩
    exact bboxIntersects_of_inside _ _ hw hh hin
  unfold Store.findResults
  rcases hf : s.findInBounds bounds outLen fopts with ⟨count, out, s2⟩
  dsimp only
  unfold Store.findInBounds at hf
  dsimp only at hf
  obtain ⟨i, hi1, hi2, hi3⟩ := findLoop_reaches s bounds (fopts.includeDynamic.getD true)
    (fopts.modeAll.getD false) outLen R
    (s.readBoundingBox (idxGet s.objectRefHandle r0 0)) n0 r0 hw hh hin hhit0 hr0
    10002 [(s.rootNodeId, d0)] 0 0 (Array.mkArray outLen 0) (count, out, s2) hf
    (by
      intro e he
      rw [List.mem_singleton.mp he]
      exact hdepth)
    (by
      intro e he
      rw [List.mem_singleton.mp he]
      exact hnodes)
    (by
      simp only [entrySum, List.map_cons, List.map_nil, List.sum_cons, List.sum_nil]
      omega)
    (by
      simp only [entrySum, List.map_cons, List.map_nil, List.sum_cons, List.sum_nil]
      omega)
    (by
      simp only [entryObjSum, List.map_cons, List.map_nil, List.sum_cons, List.sum_nil]
      omega)
    (by simp)
    (Or.inr ⟨(s.rootNodeId, d0), List.mem_singleton.mpr rfl, hpath⟩)
  rw [← hi3]
  exact getD_mem_take out count i hi1 hi2

/-- The zero-area store: a fresh store holding one object whose bounding box
has zero width and height. -/
def c1s : Store := (((freshStore wopts).insert 1 { x := 0, y := 0, w := 0, h := 0 } 0).getD
  ({ handle := 0, nodeId := 0, flags := 0, inserted := false }, freshStore wopts)).2

/-- C1 counterexample: the zero-area object's stored box sits at the query
rectangle's own corner, so containment holds, yet the query returns
nothing — the box's zero extent makes its right edge coincide with the
query's left edge, and bboxIntersects's strict comparison (lhsMaxX > rhs.x,
here 0 > 0) rejects the boundary-touching degenerate box: a false negative
for the claim as stated. -/
theorem c1_zero_area_counterexample :
    boxInside (c1s.readBoundingBox 0) { x := 0, y := 0, w := 10, h := 10 } ∧
    c1s.findResults { x := 0, y := 0, w := 10, h := 10 } 8 {} = [] := by
  constructor
  · with_unfolding_all exact of_decide_eq_true rfl
  · with_unfolding_all rfl

theorem c1_no_false_negatives_amended_witness :
    idxGet c8base.objectRefHandle 0 0 ∈ c8base.findResults boxA 4 {} := by
  refine c1_no_false_negatives_amended c8base boxA 4 {}
    (fun m => if m = 0 then [0] else []) 0 0 0 ?_ ?_ ?_ ?_ ?_ (by decide) ?_ ?_ ?_ ?_
    (Or.inl rfl)
  · show c8base.nodeChildren c8base.rootNodeId = []
    with_unfolding_all rfl
  · intro m hm
    have hsub : subtreeNodes c8base 0 c8base.rootNodeId = [0] := by
      with_unfolding_all rfl
    rw [hsub] at hm
    rw [List.mem_singleton.mp hm]
    with_unfolding_all exact of_decide_eq_true rfl
  · have hsub : subtreeNodes c8base 0 c8base.rootNodeId = [0] := by
      with_unfolding_all rfl
    rw [hsub]
    decide
  · with_unfolding_all exact of_decide_eq_true rfl
  · with_unfolding_all exact of_decide_eq_true rfl
  · have hsub : subtreeNodes c8base 0 c8base.rootNodeId = [0] := by
      with_unfolding_all rfl
    rw [hsub]
    decide
  · with_unfolding_all exact of_decide_eq_true rfl
  · with_unfolding_all exact of_decide_eq_true rfl
  · with_unfolding_all exact of_decide_eq_true rfl

end FD
